import Mathlib

/-!
The server reporter of go-grpc-prometheus (`server_reporter.go`).

A shallow embedding of `server_reporter.go` and of the library operations it
calls, followed by theorems about the per-call reporting protocol and the
label sanitizer (`slugifyError`, `firstN`).

Conventions of the embedding

* A Go `string` is its sequence of bytes, `List Nat`; a real string has every
  byte below 256.  The UTF-8 decoder below treats any larger number like an
  invalid byte, so statements quantified over `GoString` cover every real
  string.
* `uint8` values are `Nat` with an explicit `% 256` where the source
  increments; a real `uint8` argument is below 256.
* The registry (`*ServerMetrics`) is passed explicitly: every method takes the
  current registry state and returns the next one.  The clock is an explicit
  argument (nanoseconds).
* Library code is modelled by what it computes: `range` over a string and the
  regexp engine read runes with `utf8.DecodeRuneInString`; the Unicode case
  table behind `strings.ToLower` is a parameter `tbl`, so every theorem holds
  for the real table.
* A `*status.Status` is what the reporter reads of it: `Code()` and the text of
  `Err()`.  The statuses grpc builds are the values `statusNew code msg`, whose
  error text is `rpc error: code = <code> desc = <msg>`.
* `WithLabelValues` panics on a label value that is not valid UTF-8.  The only
  call that receives labels from outside is the one of the constructor:
  `newServerReporterChecked` is the constructor with that panic, and
  `newServerReporter` is what it returns when the labels pass the check.
-/

namespace GrpcPrometheus

/-! ## Go strings and UTF-8 decoding -/

/-- A Go string: its bytes. -/
abbrev GoString := List Nat

/-- The bytes of a string literal made of ASCII characters. -/
def lit (s : String) : GoString := s.data.map Char.toNat

/-- Go's `utf8.RuneError`, U+FFFD. -/
def RuneError : Nat := 0xFFFD

/-- A UTF-8 continuation byte, `0x80..0xBF`. -/
def isCont (b : Nat) : Bool := 0x80 ≤ b && b ≤ 0xBF

/-- The lower bound Go's `acceptRanges` puts on the second byte after the
first byte `b0`: it excludes the overlong forms. -/
def acceptLo (b0 : Nat) : Nat := if b0 = 0xE0 then 0xA0 else if b0 = 0xF0 then 0x90 else 0x80

/-- The upper bound Go's `acceptRanges` puts on the second byte after the
first byte `b0`: it excludes the surrogates and what lies above U+10FFFF. -/
def acceptHi (b0 : Nat) : Nat := if b0 = 0xED then 0x9F else if b0 = 0xF4 then 0x8F else 0xBF

/-- Go's `utf8.DecodeRuneInString`: the first rune of `s` and its width in
bytes.  An invalid or truncated encoding gives `(RuneError, 1)`; the empty
string gives `(RuneError, 0)`.  First bytes `0xC2..0xDF` open a 2-byte,
`0xE0..0xEF` a 3-byte and `0xF0..0xF4` a 4-byte encoding, as in Go's table
`first`. -/
def decodeRune : GoString → Nat × Nat
  | [] => (RuneError, 0)
  | b0 :: t =>
    if b0 < 0x80 then (b0, 1)
    else if b0 < 0xC2 then (RuneError, 1)
    else if b0 < 0xE0 then
      match t with
      | b1 :: _ =>
        if acceptLo b0 ≤ b1 ∧ b1 ≤ acceptHi b0 then
          ((b0 % 0x20) * 0x40 + b1 % 0x40, 2)
        else (RuneError, 1)
      | [] => (RuneError, 1)
    else if b0 < 0xF0 then
      match t with
      | b1 :: b2 :: _ =>
        if acceptLo b0 ≤ b1 ∧ b1 ≤ acceptHi b0 ∧ isCont b2 then
          ((b0 % 0x10) * 0x1000 + (b1 % 0x40) * 0x40 + b2 % 0x40, 3)
        else (RuneError, 1)
      | _ => (RuneError, 1)
    else if b0 < 0xF5 then
      match t with
      | b1 :: b2 :: b3 :: _ =>
        if acceptLo b0 ≤ b1 ∧ b1 ≤ acceptHi b0 ∧ isCont b2 ∧ isCont b3 then
          ((b0 % 0x08) * 0x40000 + (b1 % 0x40) * 0x1000 + (b2 % 0x40) * 0x40 + b3 % 0x40, 4)
        else (RuneError, 1)
      | _ => (RuneError, 1)
    else (RuneError, 1)

/-- One iteration of `for j, c := range s`: the byte offset `j` of the rune,
the rune `c`, and the bytes `s[j:j+width]` the decoder consumed for it. -/
structure RuneAt where
  offset : Nat
  rune : Nat
  bytes : GoString
deriving DecidableEq, Repr

/-- The iterations of a rune-by-rune scan of a string.  `skip` counts the bytes
of the current rune that remain to be stepped over and `j` is the offset of the
head of the remaining bytes; the scan of a whole string starts at `skip = 0`,
`j = 0`.  After an invalid byte the scan advances one byte. -/
def rangeFrom : Nat → Nat → GoString → List RuneAt
  | _, _, [] => []
  | 0, j, b :: t =>
    ⟨j, (decodeRune (b :: t)).1, (b :: t).take (decodeRune (b :: t)).2⟩
      :: rangeFrom ((decodeRune (b :: t)).2 - 1) (j + 1) t
  | k + 1, j, _ :: t => rangeFrom k (j + 1) t

/-- The iterations of `for j, c := range s`. -/
def rangeString (s : GoString) : List RuneAt := rangeFrom 0 0 s

/-- Go's `utf8.RuneCountInString`: the number of runes `range` yields. -/
def runeCount (s : GoString) : Nat := (rangeString s).length

/-- The runes `range` yields. -/
def runesOf (s : GoString) : List Nat := (rangeString s).map RuneAt.rune

/-- Go's `utf8.EncodeRune`: a surrogate or a value above U+10FFFF is encoded as
U+FFFD. -/
def encodeRune (r : Nat) : GoString :=
  if r ≤ 0x7F then [r]
  else if r ≤ 0x7FF then [0xC0 + r / 0x40, 0x80 + r % 0x40]
  else if 0x10FFFF < r ∨ (0xD800 ≤ r ∧ r ≤ 0xDFFF) then [0xEF, 0xBF, 0xBD]
  else if r ≤ 0xFFFF then [0xE0 + r / 0x1000, 0x80 + (r / 0x40) % 0x40, 0x80 + r % 0x40]
  else [0xF0 + r / 0x40000, 0x80 + (r / 0x1000) % 0x40, 0x80 + (r / 0x40) % 0x40,
        0x80 + r % 0x40]

/-- A Unicode scalar value: what a valid UTF-8 string encodes. -/
def isScalar (r : Nat) : Prop := r < 0xD800 ∨ (0xE000 ≤ r ∧ r ≤ 0x10FFFF)

instance (r : Nat) : Decidable (isScalar r) := by unfold isScalar; infer_instance

/-- The UTF-8 encoding of a sequence of code points. -/
def encodeAll (rs : List Nat) : GoString := rs.flatMap encodeRune

/-- Go's `utf8.ValidString`: no position of the scan is an invalid encoding,
which the decoder reports as `RuneError` of width 1 (a properly encoded U+FFFD
has width 3). -/
def validString (s : GoString) : Bool :=
  (rangeString s).all (fun it => !(it.rune = RuneError && it.bytes.length = 1))

/-! ## `firstN` -/

/-- The loop of `firstN` over the remaining iterations of `range s`, with the
8-bit counter `i`: `if i == n { return s[:j] }; i++`, and `return s` when the
loop ends. -/
def firstNLoop (s : GoString) (n : Nat) : List RuneAt → Nat → GoString
  | [], _ => s
  | it :: rest, i =>
    if i = n then s.take it.offset else firstNLoop s n rest ((i + 1) % 256)

/-- The function `firstN(s string, n uint8) string`. -/
def firstN (s : GoString) (n : Nat) : GoString :=
  firstNLoop s n (rangeString s) 0

/-! ## The pattern `[^\w]`, `ReplaceAllString`, `strings.ToLower` -/

/-- The Perl class `\w` of Go's `regexp/syntax`: `[0-9A-Za-z_]`, ASCII only. -/
def isWord (c : Nat) : Bool :=
  (0x30 ≤ c && c ≤ 0x39) || (0x41 ≤ c && c ≤ 0x5A) || c = 0x5F || (0x61 ≤ c && c ≤ 0x7A)

/-- The package variable `illegalMetricValueChars`, the compiled pattern
`[^\w]` of `init`, as the set of runes it matches: a one-rune pattern matches
at a position exactly when the rune there is in the class.  It is the
complement of `\w`, so it holds of every non-ASCII rune and of `RuneError`. -/
def illegalMetricValueChars (c : Nat) : Bool := !isWord c

/-- The method `(*Regexp).ReplaceAllString(src, repl)` for a one-rune class
`re` and a replacement without `$`: the matches are the runes of `src` in the
class (leftmost, non-overlapping, an invalid byte scanned as `RuneError` of
width 1); each match is replaced by `repl` and the text in between is copied. -/
def ReplaceAllString (re : Nat → Bool) (src repl : GoString) : GoString :=
  (rangeString src).flatMap (fun it => if re it.rune then repl else it.bytes)

/-- Go's `unicode.ToLower`: the ASCII branch is the one of the source; above
U+007F the result is read from the table `unicode.CaseRanges`, which is data of
the standard library and is taken here as the parameter `tbl`. -/
def unicodeToLower (tbl : Nat → Nat) (r : Nat) : Nat :=
  if r ≤ 0x7F then (if 0x41 ≤ r ∧ r ≤ 0x5A then r + 0x20 else r) else tbl r

/-- Go's `strings.Map`: every rune of `s` (an invalid byte read as `RuneError`)
is replaced by the encoding of its image. -/
def stringsMap (f : Nat → Nat) (s : GoString) : GoString :=
  (rangeString s).flatMap (fun it => encodeRune (f it.rune))

/-- Go's `strings.ToLower`: an ASCII-only string is lowercased byte by byte
(`'A'..'Z'` plus `'a' - 'A'`), any other string goes through
`strings.Map(unicode.ToLower, s)`. -/
def ToLower (tbl : Nat → Nat) (s : GoString) : GoString :=
  if s.all (fun c => c < 0x80) then
    s.map (fun c => if 0x41 ≤ c ∧ c ≤ 0x5A then c + 0x20 else c)
  else stringsMap (unicodeToLower tbl) s

/-! ## The registry and the status, as the reporter sees them -/

/-- The label values of one time series, in the order `WithLabelValues`
receives them. -/
abbrev Labels := List GoString

/-- A Prometheus `CounterVec`: the count of each labelled series.  `Inc` adds one
to an integer count; a series never touched reads 0. -/
abbrev CounterVec := Labels → Nat

/-- The effect of the call `v.WithLabelValues(lvs...).Inc()` on the counts, once
`WithLabelValues` has accepted the label values (see `validLabelValues` and
`CounterVec.incChecked` for the check it makes first). -/
def CounterVec.inc (v : CounterVec) (lvs : Labels) : CounterVec :=
  fun k => if k = lvs then v k + 1 else v k

/-- The check `WithLabelValues` makes on its label values: every one is valid
UTF-8 (`utf8.ValidString`).  The number of values is the number of label names
of the family in every call of the source, so that part of the check passes. -/
def validLabelValues (lvs : Labels) : Bool := lvs.all validString

/-- The call `v.WithLabelValues(lvs...).Inc()` with its check: `none` stands for
the panic of `WithLabelValues` on a label value that is not valid UTF-8, in
which case nothing is counted. -/
def CounterVec.incChecked (v : CounterVec) (lvs : Labels) : Option CounterVec :=
  if validLabelValues lvs then some (v.inc lvs) else none

/-- Go's `time.Duration`, in nanoseconds. -/
abbrev Duration := Int

/-- A Prometheus `HistogramVec`: the observations made in each labelled series,
latest first. -/
abbrev HistogramVec := Labels → List Duration

/-- The call `v.WithLabelValues(lvs...).Observe(d)`. -/
def HistogramVec.observe (v : HistogramVec) (lvs : Labels) (d : Duration) : HistogramVec :=
  fun k => if k = lvs then d :: v k else v k

/-- Go's `time.Time` as a clock reading in nanoseconds; the zero value of the
type is the reading 0. -/
abbrev Time := Int

/-- Go's `time.Since(t)` at the clock reading `now`: the difference, saturated
to the range of an `int64` as `Time.Sub` does.  The source passes it through
`Seconds()`, a conversion to floating point that is not modelled: the
histogram records the `Duration` itself. -/
def timeSince (now t : Time) : Duration :=
  max (-(2 : Int) ^ 63) (min ((2 : Int) ^ 63 - 1) (now - t))

/-- Modelled from the spec: the type `ServerMetrics` is declared outside
`server_reporter.go`; these are the fields the reporter uses, the four counter
families, the histogram family and the flag `histogramEnabled` of spec 4.3,
with the accessors the spec describes. -/
structure ServerMetrics where
  serverStartedCounter : CounterVec
  serverHandledCounter : CounterVec
  serverStreamMsgReceived : CounterVec
  serverStreamMsgSent : CounterVec
  serverHandledHistogramEnabled : Bool
  serverHandledHistogram : HistogramVec

/-- A registry in which nothing has been recorded. -/
def ServerMetrics.empty (enabled : Bool) : ServerMetrics :=
  ⟨fun _ => 0, fun _ => 0, fun _ => 0, fun _ => 0, enabled, fun _ => []⟩

/-- Modelled from the spec: the type `grpcType` is declared outside
`server_reporter.go`; the source only converts it with `string(r.rpcType)`, so
it is a string. -/
abbrev grpcType := GoString

/-- Modelled from the spec: the call type `unary` of spec 6. -/
def Unary : grpcType := lit "unary"

/-- The method `codes.Code.String()` of grpc: the name of a status code, and
`Code(n)` for a number that names none. -/
def codeString (c : Nat) : GoString :=
  match c with
  | 0 => lit "OK"
  | 1 => lit "Canceled"
  | 2 => lit "Unknown"
  | 3 => lit "InvalidArgument"
  | 4 => lit "DeadlineExceeded"
  | 5 => lit "NotFound"
  | 6 => lit "AlreadyExists"
  | 7 => lit "PermissionDenied"
  | 8 => lit "ResourceExhausted"
  | 9 => lit "FailedPrecondition"
  | 10 => lit "Aborted"
  | 11 => lit "OutOfRange"
  | 12 => lit "Unimplemented"
  | 13 => lit "Internal"
  | 14 => lit "Unavailable"
  | 15 => lit "DataLoss"
  | 16 => lit "Unauthenticated"
  | n => lit "Code(" ++ lit (toString n) ++ lit ")"

/-- The status code `codes.InvalidArgument`. -/
def InvalidArgument : Nat := 3

/-- What the reporter reads of a `*status.Status`: `st.Code()`, and the error
`st.Err()` given by its text `Error()`, `none` for a nil error.  The statuses
grpc builds are the ones of `statusNew`. -/
structure Status where
  Code : Nat
  Err : Option GoString

/-- The text `Error()` of the error of a grpc status with code `code` and message
`msg`: `fmt.Sprintf("rpc error: code = %s desc = %s", code, msg)`. -/
def statusErrorText (code : Nat) (msg : GoString) : GoString :=
  lit "rpc error: code = " ++ (codeString code ++ (lit " desc = " ++ msg))

/-- The status `status.New(code, msg)` of grpc as the reporter reads it: `Err()`
is nil exactly when the code is OK, and otherwise an error whose text is
`statusErrorText code msg`. -/
def statusNew (code : Nat) (msg : GoString) : Status :=
  ⟨code, if code = 0 then none else some (statusErrorText code msg)⟩

/-- Modelled from the spec: `splitMethodName` is defined outside
`server_reporter.go`.  Spec 3 and 6: a path of the form `/<service>/<method>` is
split on the separator into exactly two non-empty components; any other shape
yields the "unknown" fallback. -/
def splitMethodName (fullMethod : GoString) : GoString × GoString :=
  match fullMethod with
  | 0x2F :: rest =>
    match rest.dropWhile (fun c => c != 0x2F) with
    | 0x2F :: method =>
      if rest.takeWhile (fun c => c != 0x2F) ≠ [] ∧ method ≠ [] ∧ 0x2F ∉ method then
        (rest.takeWhile (fun c => c != 0x2F), method)
      else (lit "unknown", lit "unknown")
    | _ => (lit "unknown", lit "unknown")
  | _ => (lit "unknown", lit "unknown")

/-! ## The reporter -/

/-- The struct `serverReporter`.  The field `metrics` is a pointer to the shared
registry, whose state every method below receives and returns. -/
structure serverReporter where
  rpcType : grpcType
  serviceName : GoString
  methodName : GoString
  startTime : Time
  errMsgMaxLength : Nat

/-- The label values `(string(r.rpcType), r.serviceName, r.methodName)`. -/
def serverReporter.identity (r : serverReporter) : Labels :=
  [r.rpcType, r.serviceName, r.methodName]

/-- The function `newServerReporter`, with `splitMethodName` (defined outside
this file) as the parameter `split` and the clock reading `now`: the reporter
and the registry after the call, when `WithLabelValues` accepts the labels
(`newServerReporterChecked` is the function with the panic on labels that are
not valid UTF-8).  `startTime` keeps the zero value when the histogram is
disabled. -/
def newServerReporter (split : GoString → GoString × GoString) (m : ServerMetrics)
    (rpcType : grpcType) (fullMethod : GoString) (errMsgMaxLength : Nat) (now : Time) :
    serverReporter × ServerMetrics :=
  let r : serverReporter :=
    { rpcType := rpcType
      serviceName := (split fullMethod).1
      methodName := (split fullMethod).2
      startTime := if m.serverHandledHistogramEnabled then now else 0
      errMsgMaxLength := errMsgMaxLength }
  (r, { m with serverStartedCounter := m.serverStartedCounter.inc r.identity })

/-- The function `newServerReporter` with the panic of `WithLabelValues`: `none`
when a label value (the call type or an extracted name) is not valid UTF-8, in
which case no reporter is returned and nothing is counted; otherwise the
reporter and the registry after the call. -/
def newServerReporterChecked (split : GoString → GoString × GoString) (m : ServerMetrics)
    (rpcType : grpcType) (fullMethod : GoString) (errMsgMaxLength : Nat) (now : Time) :
    Option (serverReporter × ServerMetrics) :=
  let r : serverReporter :=
    { rpcType := rpcType
      serviceName := (split fullMethod).1
      methodName := (split fullMethod).2
      startTime := if m.serverHandledHistogramEnabled then now else 0
      errMsgMaxLength := errMsgMaxLength }
  match m.serverStartedCounter.incChecked r.identity with
  | some c => some (r, { m with serverStartedCounter := c })
  | none => none

/-- The method `ReceivedMessage`. -/
def serverReporter.ReceivedMessage (r : serverReporter) (m : ServerMetrics) : ServerMetrics :=
  { m with serverStreamMsgReceived := m.serverStreamMsgReceived.inc r.identity }

/-- The method `SentMessage`. -/
def serverReporter.SentMessage (r : serverReporter) (m : ServerMetrics) : ServerMetrics :=
  { m with serverStreamMsgSent := m.serverStreamMsgSent.inc r.identity }

/-- The histogram statement shared by `Handled` and `HandledWithStatus`:
`if enabled { histogram.WithLabelValues(...).Observe(time.Since(r.startTime)) }`. -/
def serverReporter.observeHandled (r : serverReporter) (m : ServerMetrics) (now : Time) :
    ServerMetrics :=
  if m.serverHandledHistogramEnabled then
    { m with serverHandledHistogram :=
        m.serverHandledHistogram.observe r.identity (timeSince now r.startTime) }
  else m

/-- The method `Handled(code)`, called at the clock reading `now`. -/
def serverReporter.Handled (r : serverReporter) (m : ServerMetrics) (code : Nat) (now : Time) :
    ServerMetrics :=
  let lvs := r.identity ++ [codeString code, []]
  r.observeHandled { m with serverHandledCounter := m.serverHandledCounter.inc lvs } now

/-- The method `slugifyError(err)`: `none` is the nil error, `some t` an error
whose `Error()` is `t`. -/
def serverReporter.slugifyError (tbl : Nat → Nat) (r : serverReporter) (err : Option GoString) :
    GoString :=
  match err with
  | some t =>
    if t ≠ [] then
      firstN (ToLower tbl (ReplaceAllString illegalMetricValueChars t (lit "_")))
        r.errMsgMaxLength
    else []
  | none => []

/-- The method `HandledWithStatus(st)`, called at the clock reading `now`. -/
def serverReporter.HandledWithStatus (tbl : Nat → Nat) (r : serverReporter) (m : ServerMetrics)
    (st : Status) (now : Time) : ServerMetrics :=
  let lvs := r.identity ++ [codeString st.Code, r.slugifyError tbl st.Err]
  r.observeHandled { m with serverHandledCounter := m.serverHandledCounter.inc lvs } now

/-! ## The label, character by character -/

/-- The ASCII case mapping: `'A'..'Z'` to `'a'..'z'`, any other value unchanged. -/
def asciiLower (c : Nat) : Nat := if 0x41 ≤ c ∧ c ≤ 0x5A then c + 0x20 else c

/-- The character of the label that stands for the rune `c` of the error text:
the lowercase of a word character, an underscore for any other rune. -/
def labelChar (c : Nat) : Nat := if isWord c then asciiLower c else 0x5F

/-- The characters a label may hold: `a..z`, `0..9` and `_`. -/
def isLabelChar (c : Nat) : Bool :=
  (0x61 ≤ c && c ≤ 0x7A) || (0x30 ≤ c && c ≤ 0x39) || c = 0x5F

/-- The sanitizer as the specification words it, on the code points of the
text: first lowercase every character (the case mapping of `strings.ToLower`),
then replace every character that is not a letter, digit or underscore (the
class `\w`) by one underscore, then keep the first `n` code points. -/
def sanitizeSpec (tbl : Nat → Nat) (t : GoString) (n : Nat) : GoString :=
  (((runesOf t).map (unicodeToLower tbl)).map (fun c => if isWord c then c else 0x5F)).take n

/-- The same three steps in the order of the source: replace, then lowercase,
then keep the first `n` code points. -/
def sanitizeReplaceFirst (tbl : Nat → Nat) (t : GoString) (n : Nat) : GoString :=
  (((runesOf t).map (fun c => if isWord c then c else 0x5F)).map (unicodeToLower tbl)).take n

/-! ## The loop of `firstN`, iteration by iteration -/

/-- The values `(i, j)` of the counter and of the offset at the start of every
iteration the loop of `firstN` runs, for the remaining iterations of `range s`:
the same loop as `firstNLoop`, recording its state instead of its result. -/
def firstNStates (n : Nat) : List RuneAt → Nat → List (Nat × Nat)
  | [], _ => []
  | it :: rest, i =>
    (i, it.offset) :: (if i = n then [] else firstNStates n rest ((i + 1) % 256))

/-- What `firstN` returns after the iterations recorded by `firstNStates`: the
slice `s[:j]` when the last iteration found `i == n`, the string `s` when the
loop ran to its end. -/
def firstNResult (s : GoString) (n : Nat) (states : List (Nat × Nat)) : GoString :=
  match states.getLast? with
  | some (i, j) => if i = n then s.take j else s
  | none => s

/-! ## The protocol of the call-handling layer -/

/-- The registry together with the reporters in flight: those constructed whose
terminal method has not been called. -/
structure System where
  metrics : ServerMetrics
  live : List serverReporter

/-- One call of the call-handling layer that follows the protocol of spec 4.1:
the construction of a reporter, or a method call on the reporter in flight at
position `i`.  A terminal call ends the life of its reporter. -/
inductive Call where
  | construct (rpcType : grpcType) (fullMethod : GoString) (errMsgMaxLength : Nat) (now : Time)
  | receivedMessage (i : Nat)
  | sentMessage (i : Nat)
  | handled (i : Nat) (code : Nat) (now : Time)
  | handledWithStatus (i : Nat) (st : Status) (now : Time)

/-- The effect of one call.  A call on a position that names no reporter in
flight is not a call of the protocol and does nothing. -/
def System.step (tbl : Nat → Nat) (split : GoString → GoString × GoString) (s : System) :
    Call → System
  | .construct rpcType fullMethod errMsgMaxLength now =>
    ⟨(newServerReporter split s.metrics rpcType fullMethod errMsgMaxLength now).2,
      s.live ++ [(newServerReporter split s.metrics rpcType fullMethod errMsgMaxLength now).1]⟩
  | .receivedMessage i =>
    match s.live[i]? with
    | some r => ⟨r.ReceivedMessage s.metrics, s.live⟩
    | none => s
  | .sentMessage i =>
    match s.live[i]? with
    | some r => ⟨r.SentMessage s.metrics, s.live⟩
    | none => s
  | .handled i code now =>
    match s.live[i]? with
    | some r => ⟨r.Handled s.metrics code now, s.live.eraseIdx i⟩
    | none => s
  | .handledWithStatus i st now =>
    match s.live[i]? with
    | some r => ⟨r.HandledWithStatus tbl s.metrics st now, s.live.eraseIdx i⟩
    | none => s

/-- The state reached from an empty registry by a sequence of calls. -/
def System.run (tbl : Nat → Nat) (split : GoString → GoString × GoString) (enabled : Bool)
    (calls : List Call) : System :=
  calls.foldl (System.step tbl split) ⟨ServerMetrics.empty enabled, []⟩

/-- The number of reporters in flight with the identity `id`. -/
def System.liveCount (s : System) (id : Labels) : Nat :=
  s.live.countP (fun r => decide (r.identity = id))

/-- The balance of one identity: the handled counts of its series, all of them
inside a finite set `S` of (code, label) pairs, and the reporters in flight add
up to the started count. -/
def Balanced (s : System) (id : Labels) : Prop :=
  ∃ S : Finset (GoString × GoString),
    (∀ p, p ∉ S → s.metrics.serverHandledCounter (id ++ [p.1, p.2]) = 0)
      ∧ (∑ p ∈ S, s.metrics.serverHandledCounter (id ++ [p.1, p.2])) + s.liveCount id
        = s.metrics.serverStartedCounter id

/-! ## Facts about the decoder and the scan -/

theorem decodeRune_width_pos (b : Nat) (t : GoString) : 1 ≤ (decodeRune (b :: t)).2 := by
  rcases t with _ | ⟨b1, _ | ⟨b2, _ | ⟨b3, t⟩⟩⟩ <;>
    simp only [decodeRune] <;> split_ifs <;> simp

theorem decodeRune_width_le (b : Nat) (t : GoString) :
    (decodeRune (b :: t)).2 ≤ (b :: t).length := by
  rcases t with _ | ⟨b1, _ | ⟨b2, _ | ⟨b3, t⟩⟩⟩ <;>
    simp only [decodeRune] <;> split_ifs <;> simp

/-- A rune below U+0080 is decoded from one byte, itself. -/
theorem decodeRune_ascii (b : Nat) (t : GoString) (h : (decodeRune (b :: t)).1 < 0x80) :
    decodeRune (b :: t) = (b, 1) := by
  rcases t with _ | ⟨b1, _ | ⟨b2, _ | ⟨b3, t⟩⟩⟩ <;>
    simp only [decodeRune] at h ⊢ <;> split_ifs at h ⊢ <;>
    simp_all [RuneError, isCont, acceptLo, acceptHi] <;>
    (try split_ifs at * ) <;> omega

/-- The bytes of the runes of a scan, put together, are the scanned bytes. -/
theorem rangeFrom_bytes (s : GoString) :
    ∀ k j, (rangeFrom k j s).flatMap RuneAt.bytes = s.drop k := by
  induction s with
  | nil => intro k j; simp [rangeFrom]
  | cons b t ih =>
    intro k j
    cases k with
    | zero =>
      have h1 := decodeRune_width_pos b t
      obtain ⟨w, hw⟩ : ∃ w, (decodeRune (b :: t)).2 = w + 1 := ⟨_, (Nat.sub_add_cancel h1).symm⟩
      simp [rangeFrom, ih, hw]
    | succ k => simp [rangeFrom, ih]

/-- A scan yields at most one rune per byte. -/
theorem rangeFrom_length_le (s : GoString) : ∀ k j, (rangeFrom k j s).length ≤ s.length := by
  induction s with
  | nil => intro k j; simp [rangeFrom]
  | cons b t ih =>
    intro k j
    cases k with
    | zero => simpa [rangeFrom] using ih _ _
    | succ k => simpa [rangeFrom] using Nat.le_succ_of_le (ih _ _)

/-- Every rune below U+0080 of a scan stands for one byte, itself. -/
theorem rangeFrom_ascii_bytes (s : GoString) :
    ∀ k j, ∀ it ∈ rangeFrom k j s, it.rune < 0x80 → it.bytes = [it.rune] := by
  induction s with
  | nil => intro k j it hit; simp [rangeFrom] at hit
  | cons b t ih =>
    intro k j it hit hlt
    cases k with
    | zero =>
      simp only [rangeFrom, List.mem_cons] at hit
      rcases hit with rfl | hit
      · simp only at hlt ⊢
        rw [decodeRune_ascii b t hlt]
        simp
      · exact ih _ _ it hit hlt
    | succ k =>
      simp only [rangeFrom] at hit
      exact ih _ _ it hit hlt

/-- Stepping over `k` bytes is scanning what is left after them. -/
theorem rangeFrom_skip (k : Nat) : ∀ (j : Nat) (s : GoString),
    rangeFrom k j s = rangeFrom 0 (j + k) (s.drop k) := by
  induction k with
  | zero => intro j s; simp
  | succ k ih =>
    intro j s
    cases s with
    | nil => simp [rangeFrom]
    | cons b t =>
      simp only [rangeFrom, List.drop_succ_cons]
      rw [ih]
      congr 1
      omega

/-- The scan of a non-empty string: its first rune, then the scan of the rest. -/
theorem rangeFrom_cons (j b : Nat) (t : GoString) :
    rangeFrom 0 j (b :: t) =
      ⟨j, (decodeRune (b :: t)).1, (b :: t).take (decodeRune (b :: t)).2⟩
        :: rangeFrom 0 (j + (decodeRune (b :: t)).2) ((b :: t).drop (decodeRune (b :: t)).2) := by
  have h1 := decodeRune_width_pos b t
  obtain ⟨w, hw⟩ : ∃ w, (decodeRune (b :: t)).2 = w + 1 := ⟨_, (Nat.sub_add_cancel h1).symm⟩
  simp only [rangeFrom, hw, Nat.add_sub_cancel, List.drop_succ_cons]
  rw [rangeFrom_skip]
  congr 2
  omega

/-- The scan of an ASCII string: every byte is a rune. -/
theorem rangeFrom_of_ascii (s : GoString) (h : ∀ c ∈ s, c < 0x80) :
    ∀ j, (rangeFrom 0 j s).map RuneAt.bytes = s.map (fun c => [c])
      ∧ (rangeFrom 0 j s).map RuneAt.rune = s := by
  induction s with
  | nil => intro j; simp [rangeFrom]
  | cons b t ih =>
    intro j
    have hb : b < 0x80 := h b (List.mem_cons_self _ _)
    have hd : decodeRune (b :: t) = (b, 1) := by simp [decodeRune, hb]
    have ht := ih (fun c hc => h c (List.mem_cons_of_mem _ hc)) (j + 1)
    simp [rangeFrom, hd, ht.1, ht.2]

/-- The loop of `firstN`, started anywhere in the scan with a counter that has
not passed `n`: the result is the bytes before the scan position, the bytes
being stepped over, and the bytes of the next `n - i` runes. -/
theorem firstNLoop_eq (n : Nat) (hn : n < 256) (rest : GoString) :
    ∀ (pre : GoString) (k i : Nat), i ≤ n →
      firstNLoop (pre ++ rest) n (rangeFrom k pre.length rest) i
        = pre ++ rest.take k ++ ((rangeFrom k pre.length rest).take (n - i)).flatMap RuneAt.bytes := by
  induction rest with
  | nil => intro pre k i _; simp [rangeFrom, firstNLoop]
  | cons b t ih =>
    intro pre k i hi
    cases k with
    | zero =>
      simp only [rangeFrom, firstNLoop]
      by_cases hin : i = n
      · simp [hin]
      · have hlt : i < n := lt_of_le_of_ne hi hin
        have hmod : (i + 1) % 256 = i + 1 := Nat.mod_eq_of_lt (by omega)
        have h1 := decodeRune_width_pos b t
        obtain ⟨w, hw⟩ : ∃ w, (decodeRune (b :: t)).2 = w + 1 :=
          ⟨_, (Nat.sub_add_cancel h1).symm⟩
        obtain ⟨d, hd⟩ : ∃ d, n - i = d + 1 := ⟨n - i - 1, by omega⟩
        have hd2 : n - (i + 1) = d := by omega
        have := ih (pre ++ [b]) w (i + 1) (by omega)
        simp only [List.append_assoc, List.singleton_append, List.length_append,
          List.length_singleton] at this
        simp [hin, hmod, hw, hd, hd2, this]
    | succ k =>
      have := ih (pre ++ [b]) k i hi
      simp only [List.append_assoc, List.singleton_append, List.length_append,
        List.length_singleton] at this
      simp [rangeFrom, this]

/-- The function `firstN` keeps the bytes of the first `n` runes. -/
theorem firstN_eq (s : GoString) (n : Nat) (hn : n < 256) :
    firstN s n = ((rangeString s).take n).flatMap RuneAt.bytes := by
  have := firstNLoop_eq n hn s [] 0 0 (Nat.zero_le _)
  simpa [firstN, rangeString] using this

theorem flatten_take_singletons (s : GoString) :
    ∀ n, ((s.map (fun c => [c])).take n).flatten = s.take n := by
  induction s with
  | nil => intro n; simp
  | cons b t ih => intro n; cases n <;> simp [ih]

/-- On an ASCII string `firstN` keeps the first `n` bytes. -/
theorem firstN_of_ascii (s : GoString) (h : ∀ c ∈ s, c < 0x80) (n : Nat) (hn : n < 256) :
    firstN s n = s.take n := by
  rw [firstN_eq s n hn, List.flatMap_def, List.map_take, rangeString,
    (rangeFrom_of_ascii s h 0).1, flatten_take_singletons]

/-- Decoding reads back an encoded scalar value, whatever follows it. -/
theorem decodeRune_encodeRune (r : Nat) (hr : isScalar r) (rest : GoString) :
    decodeRune (encodeRune r ++ rest) = (r, (encodeRune r).length) := by
  unfold isScalar at hr
  unfold encodeRune
  split_ifs with h1 h2 h3 h4
  · simp [decodeRune]; omega
  · have e1 : ¬ (192 + r / 64 < 128) := by omega
    have e2 : ¬ (192 + r / 64 < 194) := by omega
    have e3 : (192 + r / 64 < 224) := by omega
    simp only [List.cons_append, List.nil_append, decodeRune, e1, e2, e3, if_true, if_false,
      acceptLo, acceptHi, List.length_cons, List.length_nil]
    split_ifs <;> first | omega | (simp only [Prod.mk.injEq, and_true]; omega)
  · omega
  · have e1 : ¬ (224 + r / 4096 < 128) := by omega
    have e2 : ¬ (224 + r / 4096 < 194) := by omega
    have e3 : ¬ (224 + r / 4096 < 224) := by omega
    have e4 : (224 + r / 4096 < 240) := by omega
    simp only [List.cons_append, List.nil_append, decodeRune, e1, e2, e3, e4, if_true, if_false,
      acceptLo, acceptHi, List.length_cons, List.length_nil, isCont, Bool.and_eq_true,
      decide_eq_true_eq]
    split_ifs <;> first | omega | (simp only [Prod.mk.injEq, and_true]; omega)
  · have e1 : ¬ (240 + r / 262144 < 128) := by omega
    have e2 : ¬ (240 + r / 262144 < 194) := by omega
    have e3 : ¬ (240 + r / 262144 < 224) := by omega
    have e4 : ¬ (240 + r / 262144 < 240) := by omega
    have e5 : (240 + r / 262144 < 245) := by omega
    simp only [List.cons_append, List.nil_append, decodeRune, e1, e2, e3, e4, e5, if_true,
      if_false, acceptLo, acceptHi, List.length_cons, List.length_nil, isCont, Bool.and_eq_true,
      decide_eq_true_eq]
    split_ifs <;> first | omega | (simp only [Prod.mk.injEq, and_true]; omega)

theorem encodeRune_ne_nil (r : Nat) : encodeRune r ≠ [] := by
  unfold encodeRune
  split_ifs <;> simp

/-- The scan of a valid UTF-8 string: one rune for each encoded scalar value. -/
theorem rangeFrom_encodeAll (rs : List Nat) (h : ∀ r ∈ rs, isScalar r) :
    ∀ j, (rangeFrom 0 j (encodeAll rs)).map RuneAt.bytes = rs.map encodeRune
      ∧ (rangeFrom 0 j (encodeAll rs)).map RuneAt.rune = rs := by
  induction rs with
  | nil => intro j; simp [encodeAll, rangeFrom]
  | cons r rs ih =>
    intro j
    have hr : isScalar r := h r (List.mem_cons_self _ _)
    have hd := decodeRune_encodeRune r hr (encodeAll rs)
    have ht := ih (fun c hc => h c (List.mem_cons_of_mem _ hc)) (j + (encodeRune r).length)
    have hsplit : encodeAll (r :: rs) = encodeRune r ++ encodeAll rs := by
      simp [encodeAll]
    obtain ⟨b, t, hbt⟩ : ∃ b t, encodeRune r ++ encodeAll rs = b :: t := by
      cases hen : encodeRune r with
      | nil => exact absurd hen (encodeRune_ne_nil r)
      | cons b t => exact ⟨b, t ++ encodeAll rs, by simp⟩
    rw [hsplit, hbt, rangeFrom_cons, ← hbt, hd]
    simp [ht.1, ht.2]

/-- What the decoder accepts is the encoding of the scalar value it returns. -/
theorem encodeRune_decodeRune (b : Nat) (t : GoString)
    (h : ¬ ((decodeRune (b :: t)).1 = RuneError ∧ (decodeRune (b :: t)).2 = 1)) :
    isScalar (decodeRune (b :: t)).1
      ∧ (b :: t).take (decodeRune (b :: t)).2 = encodeRune (decodeRune (b :: t)).1 := by
  by_cases h1 : b < 0x80
  · have hd : decodeRune (b :: t) = (b, 1) := by simp only [decodeRune, h1, if_true]
    rw [hd]
    refine ⟨Or.inl (by show b < 0xD800; omega), ?_⟩
    simp only [encodeRune]
    rw [if_pos (by omega)]
    rfl
  by_cases h2 : b < 0xC2
  · exact absurd (by simp only [decodeRune, h1, h2, if_true, if_false, and_self]) h
  by_cases h3 : b < 0xE0
  · rcases t with _ | ⟨b1, t⟩
    · exact absurd (by simp only [decodeRune, h1, h2, h3, if_true, if_false, and_self]) h
    · by_cases ha : acceptLo b ≤ b1 ∧ b1 ≤ acceptHi b
      · have hd : decodeRune (b :: b1 :: t) = ((b % 0x20) * 0x40 + b1 % 0x40, 2) := by
          simp only [decodeRune, h1, h2, h3, ha, if_true, if_false, and_self]
        have hlo : acceptLo b = 0x80 := by
          unfold acceptLo; rw [if_neg (by omega), if_neg (by omega)]
        have hhi : acceptHi b = 0xBF := by
          unfold acceptHi; rw [if_neg (by omega), if_neg (by omega)]
        rw [hlo, hhi] at ha
        rw [hd]
        refine ⟨Or.inl (by show _ < 0xD800; omega), ?_⟩
        simp only [encodeRune]
        rw [if_neg (by omega), if_pos (by omega)]
        simp only [List.take_succ_cons, List.take_zero, List.cons.injEq, and_true]
        omega
      · exact absurd (by simp only [decodeRune, h1, h2, h3, ha, if_true, if_false, and_self]) h
  by_cases h4 : b < 0xF0
  · rcases t with _ | ⟨b1, _ | ⟨b2, t⟩⟩
    · exact absurd (by simp only [decodeRune, h1, h2, h3, h4, if_true, if_false, and_self]) h
    · exact absurd (by simp only [decodeRune, h1, h2, h3, h4, if_true, if_false, and_self]) h
    · by_cases ha : acceptLo b ≤ b1 ∧ b1 ≤ acceptHi b ∧ isCont b2 = true
      · have hd : decodeRune (b :: b1 :: b2 :: t)
            = ((b % 0x10) * 0x1000 + (b1 % 0x40) * 0x40 + b2 % 0x40, 3) := by
          simp only [decodeRune, h1, h2, h3, h4, ha, if_true, if_false, and_self]
        have h0 : b ≠ 0xF0 ∧ b ≠ 0xF4 := by omega
        simp only [acceptLo, acceptHi, isCont, h0.1, h0.2, if_false, Bool.and_eq_true,
          decide_eq_true_eq] at ha
        rw [hd]
        constructor
        · show _ < 0xD800 ∨ (0xE000 ≤ _ ∧ _ ≤ 0x10FFFF)
          split_ifs at ha <;> omega
        · simp only [encodeRune]
          rw [if_neg (by split_ifs at ha <;> omega), if_neg (by split_ifs at ha <;> omega),
            if_neg (by split_ifs at ha <;> omega), if_pos (by split_ifs at ha <;> omega)]
          simp only [List.take_succ_cons, List.take_zero, List.cons.injEq, and_true]
          split_ifs at ha <;> omega
      · exact absurd
          (by simp only [decodeRune, h1, h2, h3, h4, ha, if_true, if_false, and_self]) h
  by_cases h5 : b < 0xF5
  · rcases t with _ | ⟨b1, _ | ⟨b2, _ | ⟨b3, t⟩⟩⟩
    · exact absurd (by simp only [decodeRune, h1, h2, h3, h4, h5, if_true, if_false, and_self]) h
    · exact absurd (by simp only [decodeRune, h1, h2, h3, h4, h5, if_true, if_false, and_self]) h
    · exact absurd (by simp only [decodeRune, h1, h2, h3, h4, h5, if_true, if_false, and_self]) h
    · by_cases ha : acceptLo b ≤ b1 ∧ b1 ≤ acceptHi b ∧ isCont b2 = true ∧ isCont b3 = true
      · have hd : decodeRune (b :: b1 :: b2 :: b3 :: t)
            = ((b % 0x08) * 0x40000 + (b1 % 0x40) * 0x1000 + (b2 % 0x40) * 0x40 + b3 % 0x40,
                4) := by
          simp only [decodeRune, h1, h2, h3, h4, h5, ha, if_true, if_false, and_self]
        have h0 : b ≠ 0xE0 ∧ b ≠ 0xED := by omega
        simp only [acceptLo, acceptHi, isCont, h0.1, h0.2, if_false, Bool.and_eq_true,
          decide_eq_true_eq] at ha
        rw [hd]
        constructor
        · show _ < 0xD800 ∨ (0xE000 ≤ _ ∧ _ ≤ 0x10FFFF)
          split_ifs at ha <;> omega
        · simp only [encodeRune]
          rw [if_neg (by split_ifs at ha <;> omega), if_neg (by split_ifs at ha <;> omega),
            if_neg (by split_ifs at ha <;> omega), if_neg (by split_ifs at ha <;> omega)]
          simp only [List.take_succ_cons, List.take_zero, List.cons.injEq, and_true]
          split_ifs at ha <;> omega
      · exact absurd
          (by simp only [decodeRune, h1, h2, h3, h4, h5, ha, if_true, if_false, and_self]) h
  · exact absurd (by simp only [decodeRune, h1, h2, h3, h4, h5, if_true, if_false, and_self]) h

/-- Every validly encoded rune of a scan is a scalar value and its bytes are
its encoding. -/
theorem rangeFrom_valid (s : GoString) :
    ∀ k j, ∀ it ∈ rangeFrom k j s, ¬ (it.rune = RuneError ∧ it.bytes.length = 1) →
      isScalar it.rune ∧ it.bytes = encodeRune it.rune := by
  induction s with
  | nil => intro k j it hit; simp [rangeFrom] at hit
  | cons b t ih =>
    intro k j it hit hv
    cases k with
    | zero =>
      simp only [rangeFrom, List.mem_cons] at hit
      rcases hit with rfl | hit
      · have hw := decodeRune_width_le b t
        simp only [List.length_take, Nat.min_eq_left hw] at hv
        exact encodeRune_decodeRune b t hv
      · exact ih _ _ it hit hv
    | succ k =>
      simp only [rangeFrom] at hit
      exact ih _ _ it hit hv

/-- A valid string is the encoding of its runes, which are scalar values. -/
theorem validString_eq_encodeAll (s : GoString) (hs : validString s = true) :
    (∀ c ∈ runesOf s, isScalar c) ∧ s = encodeAll (runesOf s) := by
  have hit : ∀ it ∈ rangeString s, isScalar it.rune ∧ it.bytes = encodeRune it.rune := by
    intro it hit
    apply rangeFrom_valid s 0 0 it hit
    have := (List.all_eq_true.1 hs) it hit
    simp only [Bool.not_eq_true', Bool.and_eq_false_iff, decide_eq_false_iff_not] at this
    rintro ⟨h1, h2⟩
    rcases this with h | h
    · exact h h1
    · exact h h2
  constructor
  · intro c hc
    obtain ⟨it, hmem, rfl⟩ := List.mem_map.1 hc
    exact (hit it hmem).1
  · have hb := rangeFrom_bytes s 0 0
    simp only [List.drop_zero] at hb
    conv_lhs => rw [← hb]
    unfold encodeAll runesOf rangeString
    rw [List.flatMap_def, List.flatMap_def, List.map_map]
    congr 1
    apply List.map_congr_left
    intro it hmem
    exact (hit it hmem).2

theorem encodeRune_length_of_runeError : (encodeRune RuneError).length = 3 := by decide

/-- The encoding of scalar values is a valid string. -/
theorem validString_encodeAll (rs : List Nat) (h : ∀ r ∈ rs, isScalar r) :
    validString (encodeAll rs) = true := by
  unfold validString
  rw [List.all_eq_true]
  intro it hit
  have hb := (rangeFrom_encodeAll rs h 0).1
  have hr := (rangeFrom_encodeAll rs h 0).2
  obtain ⟨i, hi, rfl⟩ := List.getElem_of_mem hit
  have hbi : (rangeString (encodeAll rs))[i].bytes
      = encodeRune (rangeString (encodeAll rs))[i].rune := by
    have h1 := congrArg (fun l => l[i]?) hb
    have h2 := congrArg (fun l => l[i]?) hr
    simp only [List.getElem?_map, rangeString] at h1 h2
    rw [List.getElem?_eq_getElem (by simpa [rangeString] using hi)] at h1 h2
    simp only [Option.map_some'] at h1 h2
    cases hrs : rs[i]? with
    | none => rw [hrs] at h2; simp at h2
    | some c =>
      rw [hrs] at h1 h2
      simp only [Option.map_some', Option.some.injEq] at h1 h2
      simp only [rangeString]
      rw [h1, h2]
  by_cases hre : (rangeString (encodeAll rs))[i].rune = RuneError
  · rw [hbi, hre, encodeRune_length_of_runeError]
    simp
  · simp [hre]

/-! ## The label in closed form -/

theorem flatMap_singleton_of_mem {α β : Type} (l : List α) (f : α → List β) (g : α → β)
    (h : ∀ x ∈ l, f x = [g x]) : l.flatMap f = l.map g := by
  induction l with
  | nil => rfl
  | cons a l ih =>
    simp only [List.flatMap_cons, List.map_cons]
    rw [h a (List.mem_cons_self _ _), ih (fun x hx => h x (List.mem_cons_of_mem _ hx))]
    rfl

theorem isWord_lt (c : Nat) (h : isWord c = true) : c < 0x80 := by
  simp only [isWord, Bool.or_eq_true, Bool.and_eq_true, decide_eq_true_eq] at h
  omega

theorem isLabelChar_labelChar (c : Nat) : isLabelChar (labelChar c) = true := by
  unfold labelChar asciiLower
  by_cases hw : isWord c = true
  · simp only [hw, if_true]
    simp only [isWord, Bool.or_eq_true, Bool.and_eq_true, decide_eq_true_eq] at hw
    split_ifs <;> simp only [isLabelChar, Bool.or_eq_true, Bool.and_eq_true, decide_eq_true_eq]
      <;> omega
  · simp [hw, isLabelChar]

theorem isLabelChar_lt (c : Nat) (h : isLabelChar c = true) : c < 0x80 := by
  simp only [isLabelChar, Bool.or_eq_true, Bool.and_eq_true, decide_eq_true_eq] at h
  omega

/-- A label character stands for itself. -/
theorem labelChar_of_isLabelChar (c : Nat) (h : isLabelChar c = true) : labelChar c = c := by
  simp only [isLabelChar, Bool.or_eq_true, Bool.and_eq_true, decide_eq_true_eq] at h
  have hw : isWord c = true := by
    simp only [isWord, Bool.or_eq_true, Bool.and_eq_true, decide_eq_true_eq]
    omega
  simp only [labelChar, hw, if_true, asciiLower]
  split_ifs <;> omega

/-- The call `illegalMetricValueChars.ReplaceAllString(t, "_")`, rune by rune. -/
theorem ReplaceAllString_illegal (t : GoString) :
    ReplaceAllString illegalMetricValueChars t (lit "_")
      = (runesOf t).map (fun c => if isWord c then c else 0x5F) := by
  unfold ReplaceAllString runesOf
  rw [List.map_map]
  apply flatMap_singleton_of_mem
  intro it hit
  by_cases hw : isWord it.rune = true
  · simp [illegalMetricValueChars, hw,
      rangeFrom_ascii_bytes t 0 0 it hit (isWord_lt _ hw)]
  · simp only [Bool.not_eq_true] at hw
    simp [illegalMetricValueChars, hw, lit]

/-- The label of a non-empty error text: one character for each of its first
`errMsgMaxLength` runes. -/
theorem slugifyError_eq (tbl : Nat → Nat) (r : serverReporter) (t : GoString) (ht : t ≠ [])
    (hn : r.errMsgMaxLength < 256) :
    r.slugifyError tbl (some t) = ((runesOf t).map labelChar).take r.errMsgMaxLength := by
  have hascii : ∀ c ∈ (runesOf t).map (fun c => if isWord c then c else 0x5F), c < 0x80 := by
    intro c hc
    obtain ⟨a, -, rfl⟩ := List.mem_map.1 hc
    by_cases hw : isWord a = true
    · simpa [hw] using isWord_lt a hw
    · simp [hw]
  have hall : ((runesOf t).map (fun c => if isWord c then c else 0x5F)).all
      (fun c => decide (c < 0x80)) = true := by
    rw [List.all_eq_true]
    intro c hc
    simpa using hascii c hc
  have hlow : ToLower tbl ((runesOf t).map (fun c => if isWord c then c else 0x5F))
      = (runesOf t).map labelChar := by
    unfold ToLower
    rw [if_pos hall, List.map_map]
    apply List.map_congr_left
    intro a _
    by_cases hw : isWord a = true
    · simp [labelChar, asciiLower, hw]
    · simp [labelChar, hw]
  have hascii2 : ∀ c ∈ (runesOf t).map labelChar, c < 0x80 := by
    intro c hc
    obtain ⟨a, -, rfl⟩ := List.mem_map.1 hc
    exact isLabelChar_lt _ (isLabelChar_labelChar a)
  simp only [serverReporter.slugifyError, ht, ne_eq, not_false_eq_true, if_true]
  rw [ReplaceAllString_illegal, hlow, firstN_of_ascii _ hascii2 _ hn]

/-! ## More facts about labels -/

theorem runeCount_of_ascii (s : GoString) (h : ∀ c ∈ s, c < 0x80) : runeCount s = s.length := by
  have := congrArg List.length (rangeFrom_of_ascii s h 0).2
  simpa [runeCount, rangeString] using this

theorem runeCount_le_length (s : GoString) : runeCount s ≤ s.length :=
  rangeFrom_length_le s 0 0

theorem runeCount_pos (s : GoString) (h : s ≠ []) : 1 ≤ runeCount s := by
  cases s with
  | nil => exact absurd rfl h
  | cons b t => simp [runeCount, rangeString, rangeFrom]

/-- The label of any error, absent or not, in closed form. -/
theorem slugifyError_closed (tbl : Nat → Nat) (r : serverReporter) (err : Option GoString)
    (hn : r.errMsgMaxLength < 256) :
    r.slugifyError tbl err
      = ((runesOf (err.getD [])).map labelChar).take r.errMsgMaxLength := by
  cases err with
  | none => simp [serverReporter.slugifyError, runesOf, rangeString, rangeFrom]
  | some t =>
    by_cases ht : t = []
    · subst ht
      simp [serverReporter.slugifyError, runesOf, rangeString, rangeFrom]
    · simpa using slugifyError_eq tbl r t ht hn

theorem slugifyError_isLabelChar (tbl : Nat → Nat) (r : serverReporter) (err : Option GoString)
    (hn : r.errMsgMaxLength < 256) : ∀ c ∈ r.slugifyError tbl err, isLabelChar c = true := by
  intro c hc
  rw [slugifyError_closed tbl r err hn] at hc
  obtain ⟨a, -, rfl⟩ := List.mem_map.1 (List.mem_of_mem_take hc)
  exact isLabelChar_labelChar a

theorem slugifyError_length (tbl : Nat → Nat) (r : serverReporter) (err : Option GoString)
    (hn : r.errMsgMaxLength < 256) :
    (r.slugifyError tbl err).length = min r.errMsgMaxLength (runeCount (err.getD [])) := by
  rw [slugifyError_closed tbl r err hn]
  simp [runesOf, runeCount]

theorem observeHandled_counters (r : serverReporter) (m : ServerMetrics) (now : Time) :
    (r.observeHandled m now).serverHandledCounter = m.serverHandledCounter
      ∧ (r.observeHandled m now).serverStartedCounter = m.serverStartedCounter
      ∧ (r.observeHandled m now).serverStreamMsgReceived = m.serverStreamMsgReceived
      ∧ (r.observeHandled m now).serverStreamMsgSent = m.serverStreamMsgSent
      ∧ (r.observeHandled m now).serverHandledHistogramEnabled
          = m.serverHandledHistogramEnabled := by
  unfold serverReporter.observeHandled
  split_ifs <;> simp

/-! ## The claims -/

/-- The runes of a string that starts with ASCII bytes: those bytes, then the
runes of the rest. -/
theorem rangeFrom_ascii_append (a rest : GoString) (h : ∀ c ∈ a, c < 0x80) :
    ∀ j, (rangeFrom 0 j (a ++ rest)).map RuneAt.rune
      = a ++ (rangeFrom 0 (j + a.length) rest).map RuneAt.rune := by
  induction a with
  | nil => intro j; simp
  | cons b a ih =>
    intro j
    have hb : b < 0x80 := h b (List.mem_cons_self _ _)
    have hd : decodeRune (b :: (a ++ rest)) = (b, 1) := by simp [decodeRune, hb]
    have ht := ih (fun c hc => h c (List.mem_cons_of_mem _ hc)) (j + 1)
    have harith : j + 1 + a.length = j + (a.length + 1) := by omega
    simp [rangeFrom, hd, ht, harith]

/-- The runes of a scan do not depend on the offset it starts from. -/
theorem rangeFrom_rune_offset (s : GoString) : ∀ (k j1 j2 : Nat),
    (rangeFrom k j1 s).map RuneAt.rune = (rangeFrom k j2 s).map RuneAt.rune := by
  induction s with
  | nil => intro k j1 j2; simp [rangeFrom]
  | cons b t ih =>
    intro k j1 j2
    cases k with
    | zero => simp [rangeFrom, ih _ (j1 + 1) (j2 + 1)]
    | succ k => simp [rangeFrom, ih k (j1 + 1) (j2 + 1)]

theorem runesOf_ascii_append (a rest : GoString) (h : ∀ c ∈ a, c < 0x80) :
    runesOf (a ++ rest) = a ++ runesOf rest := by
  unfold runesOf rangeString
  rw [rangeFrom_ascii_append a rest h 0, rangeFrom_rune_offset rest 0 (0 + a.length) 0]

/-- The label of the error of a grpc status, for a maximum length up to the 18
characters of `rpc error: code = `: the first characters of
`rpc_error__code___`, whatever the code and the message. -/
theorem slugifyError_statusErrorText (tbl : Nat → Nat) (r : serverReporter) (code : Nat)
    (msg : GoString) (hn : r.errMsgMaxLength ≤ 18) :
    r.slugifyError tbl (some (statusErrorText code msg))
      = (lit "rpc_error__code___").take r.errMsgMaxLength := by
  have hne : statusErrorText code msg ≠ [] := by
    simp [statusErrorText, lit]
  have hascii : ∀ c ∈ lit "rpc error: code = ", c < 0x80 := by decide
  rw [slugifyError_eq tbl r _ hne (by omega), statusErrorText,
    runesOf_ascii_append _ _ hascii, List.map_append,
    List.take_append_of_le_length (by simpa [lit] using hn)]
  rfl

/-- C1, the claim as stated fails: grpc's status with code InvalidArgument and
message `Bad Request!!` has the error text
`rpc error: code = InvalidArgument desc = Bad Request!!`; in the scenario (a
reporter for `/pkg.Greeter/SayHello`, unary, maximum length 5, on an empty
registry, one `ReceivedMessage`, then `HandledWithStatus`) the handled counter
at (unary, pkg.Greeter, SayHello, InvalidArgument, `bad_r`) is never 1,
whatever the case table, the flag and the clock readings. -/
theorem C1_bad_r_counterexample :
    ¬ ∃ (tbl : Nat → Nat) (split : GoString → GoString × GoString) (enabled : Bool)
        (t0 t1 : Time),
        split (lit "/pkg.Greeter/SayHello") = (lit "pkg.Greeter", lit "SayHello") ∧
        ((newServerReporter split (ServerMetrics.empty enabled) Unary
              (lit "/pkg.Greeter/SayHello") 5 t0).1.HandledWithStatus tbl
            ((newServerReporter split (ServerMetrics.empty enabled) Unary
              (lit "/pkg.Greeter/SayHello") 5 t0).1.ReceivedMessage
              (newServerReporter split (ServerMetrics.empty enabled) Unary
                (lit "/pkg.Greeter/SayHello") 5 t0).2)
            (statusNew InvalidArgument (lit "Bad Request!!")) t1).serverHandledCounter
          [lit "unary", lit "pkg.Greeter", lit "SayHello", codeString InvalidArgument,
            lit "bad_r"] = 1 := by
  rintro ⟨tbl, split, enabled, t0, t1, hsplit, h⟩
  have hslug : serverReporter.slugifyError tbl
      ⟨Unary, lit "pkg.Greeter", lit "SayHello", if enabled then t0 else 0, 5⟩
      (statusNew InvalidArgument (lit "Bad Request!!")).Err = lit "rpc_e" := by
    have herr : (statusNew InvalidArgument (lit "Bad Request!!")).Err
        = some (statusErrorText InvalidArgument (lit "Bad Request!!")) := rfl
    rw [herr, slugifyError_statusErrorText tbl _ _ _ (by simp)]
    rfl
  simp only [serverReporter.HandledWithStatus, (observeHandled_counters _ _ _).1,
    newServerReporter, hsplit, serverReporter.ReceivedMessage, ServerMetrics.empty,
    serverReporter.identity, hslug] at h
  rw [show Unary = lit "unary" from rfl] at h
  have hne : ¬ lit "bad_r" = lit "rpc_e" := by decide
  simp [CounterVec.inc, hne] at h

/-- C1, amended: in the scenario with grpc's status of code InvalidArgument and
message `Bad Request!!`, the handled counter at (unary, pkg.Greeter, SayHello,
InvalidArgument, `rpc_e`) is 1 and the one at `bad_r` is 0.  In general, for
every reporter and every status whose error has a non-empty text `e`,
`HandledWithStatus` adds exactly 1 to the handled counter at (callType,
serviceName, methodName, code, label of `e`); for grpc's status with a code `c`
other than OK and message `msg`, `e` is `rpc error: code = <c> desc = <msg>`,
and with a maximum length up to 18 the label is the first characters of
`rpc_error__code___`. -/
theorem C1_handledWithStatus_error_text :
    (∀ (tbl : Nat → Nat) (split : GoString → GoString × GoString) (enabled : Bool)
        (t0 t1 : Time),
        split (lit "/pkg.Greeter/SayHello") = (lit "pkg.Greeter", lit "SayHello") →
        ((newServerReporter split (ServerMetrics.empty enabled) Unary
              (lit "/pkg.Greeter/SayHello") 5 t0).1.HandledWithStatus tbl
            ((newServerReporter split (ServerMetrics.empty enabled) Unary
              (lit "/pkg.Greeter/SayHello") 5 t0).1.ReceivedMessage
              (newServerReporter split (ServerMetrics.empty enabled) Unary
                (lit "/pkg.Greeter/SayHello") 5 t0).2)
            (statusNew InvalidArgument (lit "Bad Request!!")) t1).serverHandledCounter
          [lit "unary", lit "pkg.Greeter", lit "SayHello", codeString InvalidArgument,
            lit "rpc_e"] = 1
        ∧ ((newServerReporter split (ServerMetrics.empty enabled) Unary
              (lit "/pkg.Greeter/SayHello") 5 t0).1.HandledWithStatus tbl
            ((newServerReporter split (ServerMetrics.empty enabled) Unary
              (lit "/pkg.Greeter/SayHello") 5 t0).1.ReceivedMessage
              (newServerReporter split (ServerMetrics.empty enabled) Unary
                (lit "/pkg.Greeter/SayHello") 5 t0).2)
            (statusNew InvalidArgument (lit "Bad Request!!")) t1).serverHandledCounter
          [lit "unary", lit "pkg.Greeter", lit "SayHello", codeString InvalidArgument,
            lit "bad_r"] = 0)
    ∧ (∀ (tbl : Nat → Nat) (r : serverReporter) (m : ServerMetrics) (st : Status)
        (e : GoString) (now : Time), st.Err = some e → e ≠ [] →
        (r.HandledWithStatus tbl m st now).serverHandledCounter
            [r.rpcType, r.serviceName, r.methodName, codeString st.Code,
              r.slugifyError tbl (some e)]
          = m.serverHandledCounter
            [r.rpcType, r.serviceName, r.methodName, codeString st.Code,
              r.slugifyError tbl (some e)] + 1)
    ∧ (∀ (tbl : Nat → Nat) (r : serverReporter) (m : ServerMetrics) (c : Nat)
        (msg : GoString) (now : Time), c ≠ 0 →
        (r.HandledWithStatus tbl m (statusNew c msg) now).serverHandledCounter
            [r.rpcType, r.serviceName, r.methodName, codeString c,
              r.slugifyError tbl (some (statusErrorText c msg))]
          = m.serverHandledCounter
            [r.rpcType, r.serviceName, r.methodName, codeString c,
              r.slugifyError tbl (some (statusErrorText c msg))] + 1
        ∧ (r.errMsgMaxLength ≤ 18 →
            r.slugifyError tbl (some (statusErrorText c msg))
              = (lit "rpc_error__code___").take r.errMsgMaxLength)) := by
  refine ⟨?_, ?_, ?_⟩
  · intro tbl split enabled t0 t1 hsplit
    have hslug : serverReporter.slugifyError tbl
        ⟨Unary, lit "pkg.Greeter", lit "SayHello", if enabled then t0 else 0, 5⟩
        (statusNew InvalidArgument (lit "Bad Request!!")).Err = lit "rpc_e" := by
      have herr : (statusNew InvalidArgument (lit "Bad Request!!")).Err
          = some (statusErrorText InvalidArgument (lit "Bad Request!!")) := rfl
      rw [herr, slugifyError_statusErrorText tbl _ _ _ (by simp)]
      rfl
    have hne : ¬ lit "bad_r" = lit "rpc_e" := by decide
    have hcode : (statusNew InvalidArgument (lit "Bad Request!!")).Code = InvalidArgument :=
      rfl
    simp only [serverReporter.HandledWithStatus, (observeHandled_counters _ _ _).1,
      newServerReporter, hsplit, serverReporter.ReceivedMessage, ServerMetrics.empty,
      serverReporter.identity, hslug, hcode]
    rw [show Unary = lit "unary" from rfl]
    simp [CounterVec.inc, hne]
  · intro tbl r m st e now he _
    simp only [serverReporter.HandledWithStatus, (observeHandled_counters _ _ _).1,
      serverReporter.identity, he]
    simp [CounterVec.inc]
  · intro tbl r m c msg now hc
    have herr : (statusNew c msg).Err = some (statusErrorText c msg) := by
      simp [statusNew, hc]
    refine ⟨?_, slugifyError_statusErrorText tbl r c msg⟩
    simp only [serverReporter.HandledWithStatus, (observeHandled_counters _ _ _).1,
      serverReporter.identity, herr]
    simp [CounterVec.inc, statusNew]

/-- Witness of C1 amended: the scenario with the path split as the
specification describes, and the general parts at a reporter of maximum length
3 with an error text `No!` and with grpc's status of code InvalidArgument and
message `No!`. -/
theorem C1_handledWithStatus_error_text_witness :
    ((newServerReporter splitMethodName (ServerMetrics.empty true) Unary
              (lit "/pkg.Greeter/SayHello") 5 0).1.HandledWithStatus id
            ((newServerReporter splitMethodName (ServerMetrics.empty true) Unary
              (lit "/pkg.Greeter/SayHello") 5 0).1.ReceivedMessage
              (newServerReporter splitMethodName (ServerMetrics.empty true) Unary
                (lit "/pkg.Greeter/SayHello") 5 0).2)
            (statusNew InvalidArgument (lit "Bad Request!!")) 7).serverHandledCounter
          [lit "unary", lit "pkg.Greeter", lit "SayHello", codeString InvalidArgument,
            lit "rpc_e"] = 1
      ∧ (serverReporter.HandledWithStatus id ⟨Unary, lit "svc", lit "m", 0, 3⟩
          (ServerMetrics.empty false) ⟨InvalidArgument, some (lit "No!")⟩
          7).serverHandledCounter
          [Unary, lit "svc", lit "m", codeString InvalidArgument,
            serverReporter.slugifyError id ⟨Unary, lit "svc", lit "m", 0, 3⟩ (some (lit "No!"))]
        = (ServerMetrics.empty false).serverHandledCounter
          [Unary, lit "svc", lit "m", codeString InvalidArgument,
            serverReporter.slugifyError id ⟨Unary, lit "svc", lit "m", 0, 3⟩
              (some (lit "No!"))] + 1
      ∧ serverReporter.slugifyError id ⟨Unary, lit "svc", lit "m", 0, 3⟩
          (some (statusErrorText InvalidArgument (lit "No!")))
        = (lit "rpc_error__code___").take 3 :=
  ⟨(C1_handledWithStatus_error_text.1 id splitMethodName true 0 7 (by decide)).1,
    C1_handledWithStatus_error_text.2.1 id ⟨Unary, lit "svc", lit "m", 0, 3⟩
      (ServerMetrics.empty false) ⟨InvalidArgument, some (lit "No!")⟩ (lit "No!") 7 rfl
      (by decide),
    (C1_handledWithStatus_error_text.2.2 id ⟨Unary, lit "svc", lit "m", 0, 3⟩
      (ServerMetrics.empty false) InvalidArgument (lit "No!") 7 (by decide)).2 (by decide)⟩

/-- C2: for every error text `t` and every maximum length below 256, the label
holds only lowercase letters, digits and underscores, and its length in
codepoints is at most the minimum of the length of `t` (in codepoints, hence
also in bytes) and the maximum length. -/
theorem C2_label_charset_and_length (tbl : Nat → Nat) (r : serverReporter) (t : GoString)
    (hn : r.errMsgMaxLength < 256) :
    (∀ c ∈ r.slugifyError tbl (some t), isLabelChar c = true)
      ∧ runeCount (r.slugifyError tbl (some t)) ≤ min (runeCount t) r.errMsgMaxLength
      ∧ runeCount (r.slugifyError tbl (some t)) ≤ min t.length r.errMsgMaxLength := by
  have hc := slugifyError_isLabelChar tbl r (some t) hn
  have hl := slugifyError_length tbl r (some t) hn
  have hrc : runeCount (r.slugifyError tbl (some t)) = (r.slugifyError tbl (some t)).length :=
    runeCount_of_ascii _ (fun c h => isLabelChar_lt c (hc c h))
  have hle := runeCount_le_length t
  simp only [Option.getD_some] at hl
  refine ⟨hc, ?_, ?_⟩ <;> rw [hrc, hl] <;> omega

/-- Witness of C2: the text `Bad Request!!` with maximum length 5. -/
theorem C2_label_charset_and_length_witness :
    (∀ c ∈ serverReporter.slugifyError id ⟨Unary, [], [], 0, 5⟩ (some (lit "Bad Request!!")),
        isLabelChar c = true)
      ∧ runeCount (serverReporter.slugifyError id ⟨Unary, [], [], 0, 5⟩
          (some (lit "Bad Request!!"))) ≤ min (runeCount (lit "Bad Request!!")) 5
      ∧ runeCount (serverReporter.slugifyError id ⟨Unary, [], [], 0, 5⟩
          (some (lit "Bad Request!!"))) ≤ min (lit "Bad Request!!").length 5 :=
  C2_label_charset_and_length id ⟨Unary, [], [], 0, 5⟩ (lit "Bad Request!!") (by decide)

theorem unicodeToLower_replaced (tbl : Nat → Nat) (c : Nat) :
    unicodeToLower tbl (if isWord c then c else 0x5F) = labelChar c := by
  by_cases hw : isWord c = true
  · have := isWord_lt c hw
    simp only [hw, if_true, unicodeToLower, labelChar, asciiLower]
    rw [if_pos (by omega)]
  · simp [hw, unicodeToLower, labelChar]

theorem isWord_asciiLower (c : Nat) : isWord (asciiLower c) = isWord c := by
  unfold asciiLower
  split_ifs with h
  · have h1 : isWord c = true := by
      simp only [isWord, Bool.or_eq_true, Bool.and_eq_true, decide_eq_true_eq]
      omega
    have h2 : isWord (c + 0x20) = true := by
      simp only [isWord, Bool.or_eq_true, Bool.and_eq_true, decide_eq_true_eq]
      omega
    rw [h1, h2]
  · rfl

theorem replaced_unicodeToLower (tbl : Nat → Nat) (c : Nat)
    (h : 0x80 ≤ c → isWord (tbl c) = false) :
    (if isWord (unicodeToLower tbl c) then unicodeToLower tbl c else 0x5F) = labelChar c := by
  by_cases hc : c ≤ 0x7F
  · have e : unicodeToLower tbl c = asciiLower c := by
      simp only [unicodeToLower, asciiLower]
      rw [if_pos hc]
    rw [e, isWord_asciiLower, labelChar]
  · have hw : isWord c = false := by
      by_contra hne
      have := isWord_lt c (by simpa using hne)
      omega
    have e : unicodeToLower tbl c = tbl c := by
      simp only [unicodeToLower]
      rw [if_neg hc]
    rw [e, h (by omega), labelChar, hw]
    simp

/-- C3, the claim as stated fails: for every case table that lowercases the
Kelvin sign U+212A to `k`, as Unicode and Go's `unicode.ToLower` do, the text
made of the Kelvin sign alone with maximum length 1 gets the label `_` from
`slugifyError` and the label `k` from the lowercase-first reference. -/
theorem C3_lowercase_first_counterexample :
    ¬ ∃ tbl : Nat → Nat, tbl 0x212A = 0x6B ∧
        serverReporter.slugifyError tbl ⟨Unary, [], [], 0, 1⟩ (some [0xE2, 0x84, 0xAA])
          = sanitizeSpec tbl [0xE2, 0x84, 0xAA] 1 := by
  rintro ⟨tbl, htbl, heq⟩
  rw [slugifyError_eq tbl _ _ (by decide) (by decide)] at heq
  have hl : ((runesOf [0xE2, 0x84, 0xAA]).map labelChar).take
      (⟨Unary, [], [], 0, 1⟩ : serverReporter).errMsgMaxLength = [0x5F] := by decide
  have hr : runesOf [0xE2, 0x84, 0xAA] = [0x212A] := by decide
  rw [hl] at heq
  simp [sanitizeSpec, hr, unicodeToLower, htbl, isWord] at heq

/-- C3, amended: for every non-empty error text and every maximum length below
256, `slugifyError` returns the result of the three steps in the order
replace, lowercase, truncate; and this is the result of the lowercase-first
reference whenever no character of the text above U+007F is lowercased to a
letter, digit or underscore. -/
theorem C3_label_replace_then_lowercase (tbl : Nat → Nat) (r : serverReporter) (t : GoString)
    (ht : t ≠ []) (hn : r.errMsgMaxLength < 256) :
    r.slugifyError tbl (some t) = sanitizeReplaceFirst tbl t r.errMsgMaxLength
      ∧ ((∀ c ∈ runesOf t, 0x80 ≤ c → isWord (tbl c) = false) →
          r.slugifyError tbl (some t) = sanitizeSpec tbl t r.errMsgMaxLength) := by
  rw [slugifyError_eq tbl r t ht hn]
  constructor
  · unfold sanitizeReplaceFirst
    rw [List.map_map]
    congr 1
    apply List.map_congr_left
    intro c _
    exact (unicodeToLower_replaced tbl c).symm
  · intro h
    unfold sanitizeSpec
    rw [List.map_map]
    congr 1
    apply List.map_congr_left
    intro c hc
    exact (replaced_unicodeToLower tbl c (h c hc)).symm

/-- Witness of C3 amended: the text `Bad Request!!` with maximum length 5. -/
theorem C3_label_replace_then_lowercase_witness :
    serverReporter.slugifyError id ⟨Unary, [], [], 0, 5⟩ (some (lit "Bad Request!!"))
        = sanitizeReplaceFirst id (lit "Bad Request!!") 5
      ∧ ((∀ c ∈ runesOf (lit "Bad Request!!"), 0x80 ≤ c → isWord (id c) = false) →
          serverReporter.slugifyError id ⟨Unary, [], [], 0, 5⟩ (some (lit "Bad Request!!"))
            = sanitizeSpec id (lit "Bad Request!!") 5) :=
  C3_label_replace_then_lowercase id ⟨Unary, [], [], 0, 5⟩ (lit "Bad Request!!")
    (by decide) (by decide)

/-- The function `firstN` on the encoding of scalar values keeps the encoding
of the first `n` of them. -/
theorem firstN_encodeAll (rs : List Nat) (hrs : ∀ c ∈ rs, isScalar c) (n : Nat)
    (hn : n < 256) : firstN (encodeAll rs) n = encodeAll (rs.take n) := by
  rw [firstN_eq _ n hn, List.flatMap_def, List.map_take, rangeString,
    (rangeFrom_encodeAll rs hrs 0).1, ← List.map_take, encodeAll, List.flatMap_def]

/-- C4: for every valid UTF-8 string `s` and every `n` below 256, `firstN(s, n)`
is the prefix of `s` made of its first `min n (count)` characters: it is the
encoding of the first `n` runes of `s`, its runes are those runes, it is a
prefix of `s` and itself valid (the cut is never inside the encoding of a
character), and it is `s` unchanged when `s` has no more than `n` runes,
however many runes `s` has. -/
theorem C4_firstN_keeps_first_codepoints (s : GoString) (hs : validString s = true) (n : Nat)
    (hn : n < 256) :
    firstN s n = encodeAll ((runesOf s).take n)
      ∧ runesOf (firstN s n) = (runesOf s).take n
      ∧ runeCount (firstN s n) = min n (runeCount s)
      ∧ firstN s n <+: s
      ∧ validString (firstN s n) = true
      ∧ (runeCount s ≤ n → firstN s n = s) := by
  obtain ⟨hsc, heq⟩ := validString_eq_encodeAll s hs
  have hsc2 : ∀ c ∈ (runesOf s).take n, isScalar c := fun c hc => hsc c (List.mem_of_mem_take hc)
  have htake : runesOf (encodeAll ((runesOf s).take n)) = (runesOf s).take n :=
    (rangeFrom_encodeAll _ hsc2 0).2
  have hfirst : firstN s n = encodeAll ((runesOf s).take n) := by
    conv_lhs => rw [heq]
    exact firstN_encodeAll (runesOf s) hsc n hn
  have hcount : runeCount s = (runesOf s).length := by simp [runesOf, runeCount]
  refine ⟨hfirst, ?_, ?_, ?_, ?_, ?_⟩
  · rw [hfirst, htake]
  · have := congrArg List.length htake
    rw [hfirst, hcount]
    simpa [runesOf, runeCount] using this
  · rw [hfirst]
    refine ⟨encodeAll ((runesOf s).drop n), ?_⟩
    conv_rhs => rw [heq]
    unfold encodeAll
    rw [← List.flatMap_append, List.take_append_drop]
  · rw [hfirst]
    exact validString_encodeAll _ hsc2
  · intro hle
    rw [hfirst, List.take_of_length_le (by omega)]
    exact heq.symm

/-- Witness of C4: a string of 300 two-byte characters cut at 255. -/
theorem C4_firstN_keeps_first_codepoints_witness :
    firstN (encodeAll (List.replicate 300 0xE9)) 255
        = encodeAll ((runesOf (encodeAll (List.replicate 300 0xE9))).take 255)
      ∧ runesOf (firstN (encodeAll (List.replicate 300 0xE9)) 255)
        = (runesOf (encodeAll (List.replicate 300 0xE9))).take 255
      ∧ runeCount (firstN (encodeAll (List.replicate 300 0xE9)) 255)
        = min 255 (runeCount (encodeAll (List.replicate 300 0xE9)))
      ∧ firstN (encodeAll (List.replicate 300 0xE9)) 255 <+: encodeAll (List.replicate 300 0xE9)
      ∧ validString (firstN (encodeAll (List.replicate 300 0xE9)) 255) = true
      ∧ (runeCount (encodeAll (List.replicate 300 0xE9)) ≤ 255 →
          firstN (encodeAll (List.replicate 300 0xE9)) 255
            = encodeAll (List.replicate 300 0xE9)) :=
  C4_firstN_keeps_first_codepoints (encodeAll (List.replicate 300 0xE9))
    (validString_encodeAll _ (fun c hc => by rw [List.eq_of_mem_replicate hc]; decide))
    255 (by decide)

/-- C5: `slugifyError` returns the empty string for the nil error and for an
error whose text is empty, whatever the maximum length, and for every error
when the maximum length is 0. -/
theorem C5_empty_label (tbl : Nat → Nat) :
    (∀ r : serverReporter, r.slugifyError tbl none = [] ∧ r.slugifyError tbl (some []) = [])
      ∧ (∀ (rpcType : grpcType) (serviceName methodName : GoString) (startTime : Time)
          (err : Option GoString),
          serverReporter.slugifyError tbl ⟨rpcType, serviceName, methodName, startTime, 0⟩ err
            = []) := by
  constructor
  · intro r
    simp [serverReporter.slugifyError]
  · intro rpcType serviceName methodName startTime err
    rw [slugifyError_closed tbl _ err (by simp)]
    simp

/-- C6: for every error `x` and maximum lengths `n ≤ m` (below 256), the
label of `x` at length `n`, sanitized again at length `m`, is itself. -/
theorem C6_sanitize_idempotent (tbl : Nat → Nat) (rn rm : serverReporter) (x : Option GoString)
    (hnm : rn.errMsgMaxLength ≤ rm.errMsgMaxLength) (hm : rm.errMsgMaxLength < 256) :
    rm.slugifyError tbl (some (rn.slugifyError tbl x)) = rn.slugifyError tbl x := by
  have hn : rn.errMsgMaxLength < 256 := lt_of_le_of_lt hnm hm
  have hc := slugifyError_isLabelChar tbl rn x hn
  have hl := slugifyError_length tbl rn x hn
  have hrunes : runesOf (rn.slugifyError tbl x) = rn.slugifyError tbl x :=
    (rangeFrom_of_ascii _ (fun c h => isLabelChar_lt c (hc c h)) 0).2
  have hmap : (rn.slugifyError tbl x).map labelChar = rn.slugifyError tbl x := by
    conv_rhs => rw [← List.map_id (rn.slugifyError tbl x)]
    apply List.map_congr_left
    intro c h
    exact labelChar_of_isLabelChar c (hc c h)
  rw [slugifyError_closed tbl rm _ hm, Option.getD_some, hrunes, hmap]
  exact List.take_of_length_le (by omega)

/-- Witness of C6: the label of `Bad Request!!` at length 5, sanitized again at
length 9. -/
theorem C6_sanitize_idempotent_witness :
    serverReporter.slugifyError id ⟨Unary, [], [], 0, 9⟩
        (some (serverReporter.slugifyError id ⟨Unary, [], [], 0, 5⟩
          (some (lit "Bad Request!!"))))
      = serverReporter.slugifyError id ⟨Unary, [], [], 0, 5⟩ (some (lit "Bad Request!!")) :=
  C6_sanitize_idempotent id ⟨Unary, [], [], 0, 5⟩ ⟨Unary, [], [], 0, 9⟩
    (some (lit "Bad Request!!")) (by decide) (by decide)

/-- The constructor with the panic of `WithLabelValues`: it returns what
`newServerReporter` computes when the three label values are valid UTF-8, and
panics otherwise. -/
theorem newServerReporterChecked_eq (split : GoString → GoString × GoString)
    (m : ServerMetrics) (rpcType : grpcType) (fullMethod : GoString) (errMsgMaxLength : Nat)
    (now : Time) :
    newServerReporterChecked split m rpcType fullMethod errMsgMaxLength now
      = if validLabelValues [rpcType, (split fullMethod).1, (split fullMethod).2] then
          some (newServerReporter split m rpcType fullMethod errMsgMaxLength now)
        else none := by
  by_cases h : validLabelValues [rpcType, (split fullMethod).1, (split fullMethod).2] = true
  · simp [newServerReporterChecked, newServerReporter, CounterVec.incChecked,
      serverReporter.identity, h]
  · simp [newServerReporterChecked, CounterVec.incChecked, serverReporter.identity, h]

/-- C7, the claim as stated fails: for the path `/s<0xFF>/m`, whose service name
is not valid UTF-8, and every function that splits it into those names, the
constructor returns no reporter at all: `WithLabelValues` panics at line 47
and nothing is counted. -/
theorem C7_invalid_utf8_counterexample :
    ¬ ∃ (split : GoString → GoString × GoString) (r : serverReporter) (m2 : ServerMetrics),
        split [0x2F, 0x73, 0xFF, 0x2F, 0x6D] = ([0x73, 0xFF], [0x6D]) ∧
        newServerReporterChecked split (ServerMetrics.empty false) Unary
          [0x2F, 0x73, 0xFF, 0x2F, 0x6D] 5 0 = some (r, m2) := by
  rintro ⟨split, r, m2, hsplit, h⟩
  rw [newServerReporterChecked_eq, hsplit] at h
  have hv : validLabelValues [Unary, [0x73, 0xFF], [0x6D]] = false := by decide
  simp [hv] at h

/-- C7, amended: for every registry state (hence for both values of the
histogram flag), call type, method path and maximum label length such that the
call type and the two extracted names are valid UTF-8, the constructor returns
(it is `newServerReporter`), adds exactly 1 to the started counter at
(callType, serviceName, methodName), the names being the ones extracted from
the path and stored in the reporter, and changes no other started series, nor
the handled counter, the histogram, the messages-received and messages-sent
counters or the flag. -/
theorem C7_construct_increments_started (split : GoString → GoString × GoString)
    (m : ServerMetrics) (rpcType : grpcType) (fullMethod : GoString) (errMsgMaxLength : Nat)
    (now : Time)
    (hvalid : validLabelValues [rpcType, (split fullMethod).1, (split fullMethod).2] = true) :
    newServerReporterChecked split m rpcType fullMethod errMsgMaxLength now
        = some (newServerReporter split m rpcType fullMethod errMsgMaxLength now)
      ∧ (newServerReporter split m rpcType fullMethod errMsgMaxLength now).1.identity
        = [rpcType, (split fullMethod).1, (split fullMethod).2]
      ∧ (newServerReporter split m rpcType fullMethod errMsgMaxLength now).2.serverStartedCounter
          [rpcType, (split fullMethod).1, (split fullMethod).2]
        = m.serverStartedCounter [rpcType, (split fullMethod).1, (split fullMethod).2] + 1
      ∧ (∀ lvs, lvs ≠ [rpcType, (split fullMethod).1, (split fullMethod).2] →
          (newServerReporter split m rpcType fullMethod errMsgMaxLength
            now).2.serverStartedCounter lvs = m.serverStartedCounter lvs)
      ∧ (newServerReporter split m rpcType fullMethod errMsgMaxLength now).2.serverHandledCounter
        = m.serverHandledCounter
      ∧ (newServerReporter split m rpcType fullMethod errMsgMaxLength
          now).2.serverHandledHistogram = m.serverHandledHistogram
      ∧ (newServerReporter split m rpcType fullMethod errMsgMaxLength
          now).2.serverStreamMsgReceived = m.serverStreamMsgReceived
      ∧ (newServerReporter split m rpcType fullMethod errMsgMaxLength
          now).2.serverStreamMsgSent = m.serverStreamMsgSent
      ∧ (newServerReporter split m rpcType fullMethod errMsgMaxLength
          now).2.serverHandledHistogramEnabled = m.serverHandledHistogramEnabled := by
  refine ⟨?_, rfl, ?_, ?_, rfl, rfl, rfl, rfl, rfl⟩
  · rw [newServerReporterChecked_eq, if_pos hvalid]
  · simp [newServerReporter, serverReporter.identity, CounterVec.inc]
  · intro lvs h
    simp [newServerReporter, serverReporter.identity, CounterVec.inc, h]

/-- Witness of C7 amended: the path `/pkg.Greeter/SayHello`, split as the
specification describes, on an empty registry. -/
theorem C7_construct_increments_started_witness :
    newServerReporterChecked splitMethodName (ServerMetrics.empty true) Unary
        (lit "/pkg.Greeter/SayHello") 5 7
        = some (newServerReporter splitMethodName (ServerMetrics.empty true) Unary
          (lit "/pkg.Greeter/SayHello") 5 7)
      ∧ (newServerReporter splitMethodName (ServerMetrics.empty true) Unary
          (lit "/pkg.Greeter/SayHello") 5 7).2.serverStartedCounter
          [Unary, (splitMethodName (lit "/pkg.Greeter/SayHello")).1,
            (splitMethodName (lit "/pkg.Greeter/SayHello")).2]
        = (ServerMetrics.empty true).serverStartedCounter
          [Unary, (splitMethodName (lit "/pkg.Greeter/SayHello")).1,
            (splitMethodName (lit "/pkg.Greeter/SayHello")).2] + 1 :=
  ⟨(C7_construct_increments_started splitMethodName (ServerMetrics.empty true) Unary
      (lit "/pkg.Greeter/SayHello") 5 7 (by decide)).1,
    (C7_construct_increments_started splitMethodName (ServerMetrics.empty true) Unary
      (lit "/pkg.Greeter/SayHello") 5 7 (by decide)).2.2.1⟩

/-- C8: for every reporter and status code `c`, `Handled(c)` adds exactly 1 to
the handled counter at (callType, serviceName, methodName, c, empty label) and
leaves every other handled series and the started, messages-received and
messages-sent counters unchanged. -/
theorem C8_handled_empty_label (r : serverReporter) (m : ServerMetrics) (c : Nat) (now : Time) :
    (r.Handled m c now).serverHandledCounter
        [r.rpcType, r.serviceName, r.methodName, codeString c, []]
      = m.serverHandledCounter [r.rpcType, r.serviceName, r.methodName, codeString c, []] + 1
      ∧ (∀ lvs, lvs ≠ [r.rpcType, r.serviceName, r.methodName, codeString c, []] →
          (r.Handled m c now).serverHandledCounter lvs = m.serverHandledCounter lvs)
      ∧ (r.Handled m c now).serverStartedCounter = m.serverStartedCounter
      ∧ (r.Handled m c now).serverStreamMsgReceived = m.serverStreamMsgReceived
      ∧ (r.Handled m c now).serverStreamMsgSent = m.serverStreamMsgSent := by
  refine ⟨?_, ?_, ?_, ?_, ?_⟩
  · simp [serverReporter.Handled, (observeHandled_counters _ _ _).1, serverReporter.identity,
      CounterVec.inc]
  · intro lvs h
    simp [serverReporter.Handled, (observeHandled_counters _ _ _).1, serverReporter.identity,
      CounterVec.inc, h]
  · simp [serverReporter.Handled, (observeHandled_counters _ _ _).2.1]
  · simp [serverReporter.Handled, (observeHandled_counters _ _ _).2.2.1]
  · simp [serverReporter.Handled, (observeHandled_counters _ _ _).2.2.2.1]

/-- C9: for every reporter and every status whose error is nil or has an empty
text, `HandledWithStatus(st)` leaves the registry in exactly the state
`Handled(st.Code())` leaves it in (every counter and the histogram), and the
handled series it adds 1 to has the empty outcome label. -/
theorem C9_handledWithStatus_without_error (tbl : Nat → Nat) (r : serverReporter)
    (m : ServerMetrics) (st : Status) (now : Time) (h : st.Err = none ∨ st.Err = some []) :
    r.HandledWithStatus tbl m st now = r.Handled m st.Code now
      ∧ (r.HandledWithStatus tbl m st now).serverHandledCounter
          [r.rpcType, r.serviceName, r.methodName, codeString st.Code, []]
        = m.serverHandledCounter
          [r.rpcType, r.serviceName, r.methodName, codeString st.Code, []] + 1 := by
  have hslug : r.slugifyError tbl st.Err = [] := by
    rcases h with h | h <;> rw [h] <;> simp [serverReporter.slugifyError]
  have heq : r.HandledWithStatus tbl m st now = r.Handled m st.Code now := by
    simp only [serverReporter.HandledWithStatus, serverReporter.Handled, hslug]
  refine ⟨heq, ?_⟩
  rw [heq]
  simp [serverReporter.Handled, (observeHandled_counters _ _ _).1, serverReporter.identity,
    CounterVec.inc]

/-- Witness of C9: the status with code OK and a nil error. -/
theorem C9_handledWithStatus_without_error_witness :
    serverReporter.HandledWithStatus id ⟨Unary, lit "svc", lit "m", 0, 5⟩
        (ServerMetrics.empty true) ⟨0, none⟩ 7
        = serverReporter.Handled ⟨Unary, lit "svc", lit "m", 0, 5⟩ (ServerMetrics.empty true) 0 7
      ∧ (serverReporter.HandledWithStatus id ⟨Unary, lit "svc", lit "m", 0, 5⟩
          (ServerMetrics.empty true) ⟨0, none⟩ 7).serverHandledCounter
          [Unary, lit "svc", lit "m", codeString 0, []]
        = (ServerMetrics.empty true).serverHandledCounter
          [Unary, lit "svc", lit "m", codeString 0, []] + 1 :=
  C9_handledWithStatus_without_error id ⟨Unary, lit "svc", lit "m", 0, 5⟩
    (ServerMetrics.empty true) ⟨0, none⟩ 7 (Or.inl rfl)

/-- C10: for every reporter with maximum label length at least 1 (and below
256) and every status with a non-empty error text, the outcome label of the one
handled series `HandledWithStatus` adds to is a non-empty string, whatever
characters the text is made of. -/
theorem C10_label_nonempty (tbl : Nat → Nat) (r : serverReporter) (m : ServerMetrics)
    (st : Status) (e : GoString) (now : Time) (hmax : 1 ≤ r.errMsgMaxLength)
    (hlt : r.errMsgMaxLength < 256) (he : st.Err = some e) (hne : e ≠ []) :
    r.slugifyError tbl st.Err ≠ []
      ∧ (r.HandledWithStatus tbl m st now).serverHandledCounter
          [r.rpcType, r.serviceName, r.methodName, codeString st.Code,
            r.slugifyError tbl st.Err]
        = m.serverHandledCounter
          [r.rpcType, r.serviceName, r.methodName, codeString st.Code,
            r.slugifyError tbl st.Err] + 1
      ∧ (∀ lvs, lvs ≠ [r.rpcType, r.serviceName, r.methodName, codeString st.Code,
            r.slugifyError tbl st.Err] →
          (r.HandledWithStatus tbl m st now).serverHandledCounter lvs
            = m.serverHandledCounter lvs) := by
  refine ⟨?_, ?_, ?_⟩
  · intro hnil
    have hl := slugifyError_length tbl r st.Err hlt
    have hp := runeCount_pos e hne
    rw [hnil, he] at hl
    simp only [List.length_nil, Option.getD_some] at hl
    omega
  · simp [serverReporter.HandledWithStatus, (observeHandled_counters _ _ _).1,
      serverReporter.identity, CounterVec.inc]
  · intro lvs h
    simp [serverReporter.HandledWithStatus, (observeHandled_counters _ _ _).1,
      serverReporter.identity, CounterVec.inc, h]

/-- Witness of C10: an error text made only of illegal characters, `!?`, with
maximum length 1. -/
theorem C10_label_nonempty_witness :
    serverReporter.slugifyError id ⟨Unary, lit "svc", lit "m", 0, 1⟩
        (⟨InvalidArgument, some (lit "!?")⟩ : Status).Err ≠ []
      ∧ (serverReporter.HandledWithStatus id ⟨Unary, lit "svc", lit "m", 0, 1⟩
          (ServerMetrics.empty false) ⟨InvalidArgument, some (lit "!?")⟩ 7).serverHandledCounter
          [Unary, lit "svc", lit "m", codeString InvalidArgument,
            serverReporter.slugifyError id ⟨Unary, lit "svc", lit "m", 0, 1⟩
              (⟨InvalidArgument, some (lit "!?")⟩ : Status).Err]
        = (ServerMetrics.empty false).serverHandledCounter
          [Unary, lit "svc", lit "m", codeString InvalidArgument,
            serverReporter.slugifyError id ⟨Unary, lit "svc", lit "m", 0, 1⟩
              (⟨InvalidArgument, some (lit "!?")⟩ : Status).Err] + 1
      ∧ (∀ lvs, lvs ≠ [Unary, lit "svc", lit "m", codeString InvalidArgument,
            serverReporter.slugifyError id ⟨Unary, lit "svc", lit "m", 0, 1⟩
              (⟨InvalidArgument, some (lit "!?")⟩ : Status).Err] →
          (serverReporter.HandledWithStatus id ⟨Unary, lit "svc", lit "m", 0, 1⟩
            (ServerMetrics.empty false) ⟨InvalidArgument, some (lit "!?")⟩
            7).serverHandledCounter lvs = (ServerMetrics.empty false).serverHandledCounter lvs) :=
  C10_label_nonempty id ⟨Unary, lit "svc", lit "m", 0, 1⟩ (ServerMetrics.empty false)
    ⟨InvalidArgument, some (lit "!?")⟩ (lit "!?") 7 (by decide) (by decide) rfl (by decide)

/-! ## The histogram and the message counters -/

/-- The histogram after `Handled`. -/
theorem Handled_histogram (r : serverReporter) (m : ServerMetrics) (code : Nat) (now : Time) :
    (r.Handled m code now).serverHandledHistogram
      = if m.serverHandledHistogramEnabled then
          m.serverHandledHistogram.observe r.identity (timeSince now r.startTime)
        else m.serverHandledHistogram := by
  cases h : m.serverHandledHistogramEnabled <;>
    simp [serverReporter.Handled, serverReporter.observeHandled, h]

/-- The histogram after `HandledWithStatus`. -/
theorem HandledWithStatus_histogram (tbl : Nat → Nat) (r : serverReporter) (m : ServerMetrics)
    (st : Status) (now : Time) :
    (r.HandledWithStatus tbl m st now).serverHandledHistogram
      = if m.serverHandledHistogramEnabled then
          m.serverHandledHistogram.observe r.identity (timeSince now r.startTime)
        else m.serverHandledHistogram := by
  cases h : m.serverHandledHistogramEnabled <;>
    simp [serverReporter.HandledWithStatus, serverReporter.observeHandled, h]

theorem timeSince_nonneg (now t : Int) (h : t ≤ now) : 0 ≤ timeSince now t := by
  unfold timeSince
  have h1 : (0 : Int) ≤ now - t := Int.sub_nonneg_of_le h
  have h2 : (0 : Int) ≤ 2 ^ 63 - 1 := by norm_num
  exact le_max_of_le_right (le_min h2 h1)

theorem timeSince_exact (now t : Int) (h : t ≤ now) (hfit : now - t < 2 ^ 63) :
    timeSince now t = now - t := by
  unfold timeSince
  have h1 : (0 : Int) ≤ now - t := Int.sub_nonneg_of_le h
  have h3 : (-(2 : Int) ^ 63) ≤ 0 := by norm_num
  have h4 : now - t ≤ 2 ^ 63 - 1 := Int.le_sub_one_of_lt hfit
  rw [min_eq_right h4, max_eq_right (le_trans h3 h1)]

/-- C11: with the histogram disabled in the registry, `newServerReporter` reads
no clock (the reporter it returns is the same for every clock reading, with
`startTime` left at the zero value), and neither `Handled`, for any code, nor
`HandledWithStatus`, for any status, observes anything: the histogram family
after the call is the one before it.  No method of the reporter changes the
flag. -/
theorem C11_disabled_histogram_untouched (tbl : Nat → Nat)
    (split : GoString → GoString × GoString) (m : ServerMetrics)
    (h : m.serverHandledHistogramEnabled = false) :
    (∀ (rpcType : grpcType) (fullMethod : GoString) (errMsgMaxLength : Nat) (now now2 : Time),
        (newServerReporter split m rpcType fullMethod errMsgMaxLength now).1
          = (newServerReporter split m rpcType fullMethod errMsgMaxLength now2).1
        ∧ (newServerReporter split m rpcType fullMethod errMsgMaxLength now).1.startTime = 0
        ∧ (newServerReporter split m rpcType fullMethod errMsgMaxLength
            now).2.serverHandledHistogram = m.serverHandledHistogram
        ∧ (newServerReporter split m rpcType fullMethod errMsgMaxLength
            now).2.serverHandledHistogramEnabled = false)
      ∧ (∀ (r : serverReporter) (code : Nat) (now : Time),
          (r.Handled m code now).serverHandledHistogram = m.serverHandledHistogram
          ∧ (r.Handled m code now).serverHandledHistogramEnabled = false)
      ∧ (∀ (r : serverReporter) (st : Status) (now : Time),
          (r.HandledWithStatus tbl m st now).serverHandledHistogram = m.serverHandledHistogram
          ∧ (r.HandledWithStatus tbl m st now).serverHandledHistogramEnabled = false)
      ∧ (∀ r : serverReporter,
          (r.ReceivedMessage m).serverHandledHistogram = m.serverHandledHistogram
          ∧ (r.ReceivedMessage m).serverHandledHistogramEnabled = false
          ∧ (r.SentMessage m).serverHandledHistogram = m.serverHandledHistogram
          ∧ (r.SentMessage m).serverHandledHistogramEnabled = false) := by
  refine ⟨?_, ?_, ?_, ?_⟩
  · intro rpcType fullMethod errMsgMaxLength now now2
    simp [newServerReporter, h]
  · intro r code now
    simp [serverReporter.Handled, serverReporter.observeHandled, h]
  · intro r st now
    simp [serverReporter.HandledWithStatus, serverReporter.observeHandled, h]
  · intro r
    exact ⟨rfl, h, rfl, h⟩

/-- Witness of C11: an empty registry with the histogram disabled, a reporter
built at clock reading 5 or 9, and terminal calls on it. -/
theorem C11_disabled_histogram_untouched_witness :
    (newServerReporter splitMethodName (ServerMetrics.empty false) Unary
        (lit "/pkg.Greeter/SayHello") 5 5).1
        = (newServerReporter splitMethodName (ServerMetrics.empty false) Unary
          (lit "/pkg.Greeter/SayHello") 5 9).1
      ∧ (serverReporter.Handled ⟨Unary, lit "svc", lit "m", 0, 5⟩ (ServerMetrics.empty false)
          InvalidArgument 7).serverHandledHistogram
        = (ServerMetrics.empty false).serverHandledHistogram
      ∧ (serverReporter.HandledWithStatus id ⟨Unary, lit "svc", lit "m", 0, 5⟩
          (ServerMetrics.empty false) ⟨InvalidArgument, some (lit "No!")⟩
          7).serverHandledHistogram = (ServerMetrics.empty false).serverHandledHistogram :=
  ⟨((C11_disabled_histogram_untouched id splitMethodName (ServerMetrics.empty false) rfl).1
      Unary (lit "/pkg.Greeter/SayHello") 5 5 9).1,
    ((C11_disabled_histogram_untouched id splitMethodName (ServerMetrics.empty false) rfl).2.1
      ⟨Unary, lit "svc", lit "m", 0, 5⟩ InvalidArgument 7).1,
    ((C11_disabled_histogram_untouched id splitMethodName (ServerMetrics.empty false) rfl).2.2.1
      ⟨Unary, lit "svc", lit "m", 0, 5⟩ ⟨InvalidArgument, some (lit "No!")⟩ 7).1⟩

/-- C12: with the histogram enabled when the reporter is built (at clock
reading `t0`) and when its terminal method is called (at `t1`, with any
registry state `m`), `Handled` and `HandledWithStatus` each add exactly one
observation, to the series keyed by (callType, serviceName, methodName) alone,
whatever the status code and the outcome label, and leave every other series
of the histogram unchanged.  The observed value is `time.Since` of the reading
captured at construction: non-negative when the clock has not gone back, and
equal to `t1 - t0` when that fits a `Duration`. -/
theorem C12_enabled_one_observation (tbl : Nat → Nat) (split : GoString → GoString × GoString)
    (m0 m : ServerMetrics) (rpcType : grpcType) (fullMethod : GoString) (errMsgMaxLength : Nat)
    (t0 t1 : Time) (code : Nat) (st : Status)
    (h0 : m0.serverHandledHistogramEnabled = true) (h1 : m.serverHandledHistogramEnabled = true)
    (hclock : t0 ≤ t1) :
    (newServerReporter split m0 rpcType fullMethod errMsgMaxLength t0).1.startTime = t0
      ∧ ((newServerReporter split m0 rpcType fullMethod errMsgMaxLength t0).1.Handled m code
            t1).serverHandledHistogram [rpcType, (split fullMethod).1, (split fullMethod).2]
          = timeSince t1 t0
            :: m.serverHandledHistogram [rpcType, (split fullMethod).1, (split fullMethod).2]
      ∧ ((newServerReporter split m0 rpcType fullMethod errMsgMaxLength t0).1.HandledWithStatus
            tbl m st t1).serverHandledHistogram
            [rpcType, (split fullMethod).1, (split fullMethod).2]
          = timeSince t1 t0
            :: m.serverHandledHistogram [rpcType, (split fullMethod).1, (split fullMethod).2]
      ∧ (∀ lvs, lvs ≠ [rpcType, (split fullMethod).1, (split fullMethod).2] →
          ((newServerReporter split m0 rpcType fullMethod errMsgMaxLength t0).1.Handled m code
            t1).serverHandledHistogram lvs = m.serverHandledHistogram lvs
          ∧ ((newServerReporter split m0 rpcType fullMethod errMsgMaxLength
              t0).1.HandledWithStatus tbl m st t1).serverHandledHistogram lvs
            = m.serverHandledHistogram lvs)
      ∧ 0 ≤ timeSince t1 t0
      ∧ (t1 - t0 < 2 ^ 63 → timeSince t1 t0 = t1 - t0) := by
  have hst : (newServerReporter split m0 rpcType fullMethod errMsgMaxLength t0).1.startTime
      = t0 := by simp [newServerReporter, h0]
  have hid : (newServerReporter split m0 rpcType fullMethod errMsgMaxLength t0).1.identity
      = [rpcType, (split fullMethod).1, (split fullMethod).2] := rfl
  refine ⟨hst, ?_, ?_, ?_, timeSince_nonneg t1 t0 hclock, timeSince_exact t1 t0 hclock⟩
  · rw [Handled_histogram, h1, if_pos rfl, hst, hid]
    simp [HistogramVec.observe]
  · rw [HandledWithStatus_histogram, h1, if_pos rfl, hst, hid]
    simp [HistogramVec.observe]
  · intro lvs hne
    constructor
    · rw [Handled_histogram, h1, if_pos rfl, hst, hid]
      simp [HistogramVec.observe, hne]
    · rw [HandledWithStatus_histogram, h1, if_pos rfl, hst, hid]
      simp [HistogramVec.observe, hne]

/-- Witness of C12: a reporter built at clock reading 5 on an empty registry
with the histogram enabled, and its terminal call at reading 9. -/
theorem C12_enabled_one_observation_witness :
    ((newServerReporter splitMethodName (ServerMetrics.empty true) Unary
          (lit "/pkg.Greeter/SayHello") 5 5).1.Handled (ServerMetrics.empty true)
          InvalidArgument 9).serverHandledHistogram
        [Unary, (splitMethodName (lit "/pkg.Greeter/SayHello")).1,
          (splitMethodName (lit "/pkg.Greeter/SayHello")).2]
      = timeSince 9 5 :: (ServerMetrics.empty true).serverHandledHistogram
        [Unary, (splitMethodName (lit "/pkg.Greeter/SayHello")).1,
          (splitMethodName (lit "/pkg.Greeter/SayHello")).2]
      ∧ (0 : Int) ≤ timeSince 9 5 :=
  ⟨(C12_enabled_one_observation id splitMethodName (ServerMetrics.empty true)
      (ServerMetrics.empty true) Unary (lit "/pkg.Greeter/SayHello") 5 5 9 InvalidArgument
      ⟨InvalidArgument, some (lit "No!")⟩ rfl rfl (by decide)).2.1,
    (C12_enabled_one_observation id splitMethodName (ServerMetrics.empty true)
      (ServerMetrics.empty true) Unary (lit "/pkg.Greeter/SayHello") 5 5 9 InvalidArgument
      ⟨InvalidArgument, some (lit "No!")⟩ rfl rfl (by decide)).2.2.2.2.1⟩

/-- C13: `ReceivedMessage` adds exactly 1 to the messages-received counter at
(callType, serviceName, methodName) and changes nothing else in the registry
(the methods take the reporter by value and return only the registry, so the
reporter is the same afterwards); `SentMessage` does the same for the
messages-sent counter; and the handled counter and the histogram after a later
terminal call, of any reporter, are what they would be without the message
call. -/
theorem C13_message_counters (tbl : Nat → Nat) (r : serverReporter) (m : ServerMetrics) :
    ((r.ReceivedMessage m).serverStreamMsgReceived r.identity
          = m.serverStreamMsgReceived r.identity + 1
        ∧ (∀ lvs, lvs ≠ r.identity →
            (r.ReceivedMessage m).serverStreamMsgReceived lvs = m.serverStreamMsgReceived lvs)
        ∧ (r.ReceivedMessage m).serverStartedCounter = m.serverStartedCounter
        ∧ (r.ReceivedMessage m).serverHandledCounter = m.serverHandledCounter
        ∧ (r.ReceivedMessage m).serverHandledHistogram = m.serverHandledHistogram
        ∧ (r.ReceivedMessage m).serverStreamMsgSent = m.serverStreamMsgSent
        ∧ (r.ReceivedMessage m).serverHandledHistogramEnabled = m.serverHandledHistogramEnabled)
      ∧ ((r.SentMessage m).serverStreamMsgSent r.identity = m.serverStreamMsgSent r.identity + 1
        ∧ (∀ lvs, lvs ≠ r.identity →
            (r.SentMessage m).serverStreamMsgSent lvs = m.serverStreamMsgSent lvs)
        ∧ (r.SentMessage m).serverStartedCounter = m.serverStartedCounter
        ∧ (r.SentMessage m).serverHandledCounter = m.serverHandledCounter
        ∧ (r.SentMessage m).serverHandledHistogram = m.serverHandledHistogram
        ∧ (r.SentMessage m).serverStreamMsgReceived = m.serverStreamMsgReceived
        ∧ (r.SentMessage m).serverHandledHistogramEnabled = m.serverHandledHistogramEnabled)
      ∧ (∀ (r2 : serverReporter) (code : Nat) (st : Status) (now : Time),
          r2.Handled (r.ReceivedMessage m) code now = r.ReceivedMessage (r2.Handled m code now)
          ∧ r2.Handled (r.SentMessage m) code now = r.SentMessage (r2.Handled m code now)
          ∧ r2.HandledWithStatus tbl (r.ReceivedMessage m) st now
            = r.ReceivedMessage (r2.HandledWithStatus tbl m st now)
          ∧ r2.HandledWithStatus tbl (r.SentMessage m) st now
            = r.SentMessage (r2.HandledWithStatus tbl m st now)
          ∧ (r2.Handled (r.ReceivedMessage m) code now).serverHandledCounter
            = (r2.Handled m code now).serverHandledCounter
          ∧ (r2.Handled (r.ReceivedMessage m) code now).serverHandledHistogram
            = (r2.Handled m code now).serverHandledHistogram
          ∧ (r2.Handled (r.SentMessage m) code now).serverHandledCounter
            = (r2.Handled m code now).serverHandledCounter
          ∧ (r2.Handled (r.SentMessage m) code now).serverHandledHistogram
            = (r2.Handled m code now).serverHandledHistogram
          ∧ (r2.HandledWithStatus tbl (r.ReceivedMessage m) st now).serverHandledCounter
            = (r2.HandledWithStatus tbl m st now).serverHandledCounter
          ∧ (r2.HandledWithStatus tbl (r.ReceivedMessage m) st now).serverHandledHistogram
            = (r2.HandledWithStatus tbl m st now).serverHandledHistogram
          ∧ (r2.HandledWithStatus tbl (r.SentMessage m) st now).serverHandledCounter
            = (r2.HandledWithStatus tbl m st now).serverHandledCounter
          ∧ (r2.HandledWithStatus tbl (r.SentMessage m) st now).serverHandledHistogram
            = (r2.HandledWithStatus tbl m st now).serverHandledHistogram) := by
  refine ⟨⟨?_, ?_, rfl, rfl, rfl, rfl, rfl⟩, ⟨?_, ?_, rfl, rfl, rfl, rfl, rfl⟩, ?_⟩
  · simp [serverReporter.ReceivedMessage, CounterVec.inc]
  · intro lvs h
    simp [serverReporter.ReceivedMessage, CounterVec.inc, h]
  · simp [serverReporter.SentMessage, CounterVec.inc]
  · intro lvs h
    simp [serverReporter.SentMessage, CounterVec.inc, h]
  · intro r2 code st now
    have e1 : r2.Handled (r.ReceivedMessage m) code now
        = r.ReceivedMessage (r2.Handled m code now) := by
      cases h : m.serverHandledHistogramEnabled <;>
        simp [serverReporter.Handled, serverReporter.observeHandled,
          serverReporter.ReceivedMessage, h]
    have e2 : r2.Handled (r.SentMessage m) code now
        = r.SentMessage (r2.Handled m code now) := by
      cases h : m.serverHandledHistogramEnabled <;>
        simp [serverReporter.Handled, serverReporter.observeHandled,
          serverReporter.SentMessage, h]
    have e3 : r2.HandledWithStatus tbl (r.ReceivedMessage m) st now
        = r.ReceivedMessage (r2.HandledWithStatus tbl m st now) := by
      cases h : m.serverHandledHistogramEnabled <;>
        simp [serverReporter.HandledWithStatus, serverReporter.observeHandled,
          serverReporter.ReceivedMessage, h]
    have e4 : r2.HandledWithStatus tbl (r.SentMessage m) st now
        = r.SentMessage (r2.HandledWithStatus tbl m st now) := by
      cases h : m.serverHandledHistogramEnabled <;>
        simp [serverReporter.HandledWithStatus, serverReporter.observeHandled,
          serverReporter.SentMessage, h]
    refine ⟨e1, e2, e3, e4, ?_, ?_, ?_, ?_, ?_, ?_, ?_, ?_⟩
    · rw [e1]; rfl
    · rw [e1]; rfl
    · rw [e2]; rfl
    · rw [e2]; rfl
    · rw [e3]; rfl
    · rw [e3]; rfl
    · rw [e4]; rfl
    · rw [e4]; rfl

/-- C17: nothing guards against a second terminal call: for every reporter and
code `c`, `Handled(c)` called twice adds exactly 2 to the handled counter at
(callType, serviceName, methodName, c, empty label) and, when the histogram is
enabled, adds two observations to the series of the reporter (none when it is
disabled). -/
theorem C17_handled_twice_double_counts (r : serverReporter) (m : ServerMetrics) (c : Nat)
    (t1 t2 : Time) :
    (r.Handled (r.Handled m c t1) c t2).serverHandledCounter
        [r.rpcType, r.serviceName, r.methodName, codeString c, []]
      = m.serverHandledCounter [r.rpcType, r.serviceName, r.methodName, codeString c, []] + 2
      ∧ (r.Handled (r.Handled m c t1) c t2).serverHandledHistogram r.identity
        = if m.serverHandledHistogramEnabled then
            timeSince t2 r.startTime :: timeSince t1 r.startTime
              :: m.serverHandledHistogram r.identity
          else m.serverHandledHistogram r.identity := by
  constructor
  · simp [serverReporter.Handled, (observeHandled_counters _ _ _).1, serverReporter.identity,
      CounterVec.inc]
  · cases h : m.serverHandledHistogramEnabled <;>
      simp [serverReporter.Handled, serverReporter.observeHandled, h, HistogramVec.observe]

/-- C18: for every error `x` and maximum lengths `n ≤ m` (below 256), the
label at length `n` is a prefix of the label at length `m`, and is `firstN` of
that label at `n`. -/
theorem C18_truncation_monotone (tbl : Nat → Nat) (rn rm : serverReporter)
    (x : Option GoString) (hnm : rn.errMsgMaxLength ≤ rm.errMsgMaxLength)
    (hm : rm.errMsgMaxLength < 256) :
    rn.slugifyError tbl x <+: rm.slugifyError tbl x
      ∧ rn.slugifyError tbl x = firstN (rm.slugifyError tbl x) rn.errMsgMaxLength := by
  have hn : rn.errMsgMaxLength < 256 := lt_of_le_of_lt hnm hm
  have hc := slugifyError_isLabelChar tbl rm x hm
  have hfirst : firstN (rm.slugifyError tbl x) rn.errMsgMaxLength
      = (rm.slugifyError tbl x).take rn.errMsgMaxLength :=
    firstN_of_ascii _ (fun c h => isLabelChar_lt c (hc c h)) _ hn
  have htake : rn.slugifyError tbl x = (rm.slugifyError tbl x).take rn.errMsgMaxLength := by
    rw [slugifyError_closed tbl rn x hn, slugifyError_closed tbl rm x hm, List.take_take,
      Nat.min_eq_left hnm]
  refine ⟨?_, ?_⟩
  · rw [htake]
    exact List.take_prefix _ _
  · rw [hfirst, htake]

/-- Witness of C18: the labels of `Bad Request!!` at lengths 5 and 9. -/
theorem C18_truncation_monotone_witness :
    serverReporter.slugifyError id ⟨Unary, [], [], 0, 5⟩ (some (lit "Bad Request!!"))
        <+: serverReporter.slugifyError id ⟨Unary, [], [], 0, 9⟩ (some (lit "Bad Request!!"))
      ∧ serverReporter.slugifyError id ⟨Unary, [], [], 0, 5⟩ (some (lit "Bad Request!!"))
        = firstN (serverReporter.slugifyError id ⟨Unary, [], [], 0, 9⟩
            (some (lit "Bad Request!!"))) 5 :=
  C18_truncation_monotone id ⟨Unary, [], [], 0, 5⟩ ⟨Unary, [], [], 0, 9⟩
    (some (lit "Bad Request!!")) (by decide) (by decide)

/-- The label character of a rune, in the words of the source: an underscore
for a rune the pattern matches, the lowercase of any other. -/
theorem labelChar_eq (tbl : Nat → Nat) (c : Nat) :
    labelChar c = if illegalMetricValueChars c then 0x5F else unicodeToLower tbl c := by
  by_cases hw : isWord c = true
  · have := unicodeToLower_replaced tbl c
    simp only [hw, if_true] at this
    simp [illegalMetricValueChars, hw, this]
  · simp [illegalMetricValueChars, labelChar, hw]

/-- C16: for every non-empty error text and every maximum length below 256,
the label has exactly `min (runeCount t) n` characters (each one byte), and its
`i`-th character is `_` when the `i`-th rune of the text is matched by `[^\w]`
and the lowercase of that rune otherwise: runes are replaced one by one, so
`a!!b` gives `a__b` and the two-byte character U+00E9 gives one `_`. -/
theorem C16_replaced_one_by_one (tbl : Nat → Nat) (r : serverReporter) (t : GoString)
    (ht : t ≠ []) (hn : r.errMsgMaxLength < 256) :
    runeCount (r.slugifyError tbl (some t)) = min (runeCount t) r.errMsgMaxLength
      ∧ runesOf (r.slugifyError tbl (some t)) = r.slugifyError tbl (some t)
      ∧ (∀ i, i < min (runeCount t) r.errMsgMaxLength →
          ∃ c, (runesOf t)[i]? = some c
            ∧ (r.slugifyError tbl (some t))[i]?
              = some (if illegalMetricValueChars c then 0x5F else unicodeToLower tbl c))
      ∧ serverReporter.slugifyError tbl ⟨r.rpcType, r.serviceName, r.methodName, r.startTime, 255⟩
          (some (lit "a!!b")) = lit "a__b"
      ∧ serverReporter.slugifyError tbl ⟨r.rpcType, r.serviceName, r.methodName, r.startTime, 255⟩
          (some [0xC3, 0xA9]) = lit "_" := by
  have hc := slugifyError_isLabelChar tbl r (some t) hn
  have hl := slugifyError_length tbl r (some t) hn
  have hascii : ∀ c ∈ r.slugifyError tbl (some t), c < 0x80 :=
    fun c h => isLabelChar_lt c (hc c h)
  simp only [Option.getD_some] at hl
  refine ⟨?_, (rangeFrom_of_ascii _ hascii 0).2, ?_, ?_, ?_⟩
  · rw [runeCount_of_ascii _ hascii, hl, Nat.min_comm]
  · intro i hi
    have hi1 : i < (runesOf t).length := by
      have : (runesOf t).length = runeCount t := by simp [runesOf, runeCount]
      omega
    have hi2 : i < r.errMsgMaxLength := by omega
    refine ⟨(runesOf t)[i], List.getElem?_eq_getElem hi1, ?_⟩
    rw [slugifyError_eq tbl r t ht hn, List.getElem?_take_of_lt hi2, List.getElem?_map,
      List.getElem?_eq_getElem hi1, Option.map_some', labelChar_eq tbl]
  · rw [slugifyError_eq tbl _ _ (by decide) (by simp)]
    show ((runesOf (lit "a!!b")).map labelChar).take 255 = lit "a__b"
    decide
  · rw [slugifyError_eq tbl _ _ (by decide) (by simp)]
    show ((runesOf [0xC3, 0xA9]).map labelChar).take 255 = lit "_"
    decide

/-- Witness of C16: the text `a!!b` with maximum length 3. -/
theorem C16_replaced_one_by_one_witness :
    runeCount (serverReporter.slugifyError id ⟨Unary, [], [], 0, 3⟩ (some (lit "a!!b")))
        = min (runeCount (lit "a!!b")) 3
      ∧ (∀ i, i < min (runeCount (lit "a!!b")) 3 →
          ∃ c, (runesOf (lit "a!!b"))[i]? = some c
            ∧ (serverReporter.slugifyError id ⟨Unary, [], [], 0, 3⟩ (some (lit "a!!b")))[i]?
              = some (if illegalMetricValueChars c then 0x5F else unicodeToLower id c)) :=
  ⟨(C16_replaced_one_by_one id ⟨Unary, [], [], 0, 3⟩ (lit "a!!b") (by decide) (by decide)).1,
    (C16_replaced_one_by_one id ⟨Unary, [], [], 0, 3⟩ (lit "a!!b") (by decide)
      (by decide)).2.2.1⟩

/-! ## The loop of `firstN` is safe -/

/-- Every offset of a scan lies inside the scanned bytes. -/
theorem rangeFrom_offset_lt (s : GoString) :
    ∀ k j, ∀ it ∈ rangeFrom k j s, j ≤ it.offset ∧ it.offset < j + s.length := by
  induction s with
  | nil => intro k j it hit; simp [rangeFrom] at hit
  | cons b t ih =>
    intro k j it hit
    cases k with
    | zero =>
      simp only [rangeFrom, List.mem_cons] at hit
      rcases hit with rfl | hit
      · simp
      · have := ih _ _ it hit
        simp only [List.length_cons]
        omega
    | succ k =>
      simp only [rangeFrom] at hit
      have := ih _ _ it hit
      simp only [List.length_cons]
      omega

/-- The counter of the loop stays between its start and `n`, and every offset
is the offset of an iteration of `range`. -/
theorem firstNStates_bounds (n : Nat) (L : List RuneAt) :
    ∀ i0, i0 ≤ n → n < 256 → ∀ st ∈ firstNStates n L i0,
      i0 ≤ st.1 ∧ st.1 ≤ n ∧ ∃ it ∈ L, st.2 = it.offset := by
  induction L with
  | nil => intro i0 _ _ st hst; simp [firstNStates] at hst
  | cons it rest ih =>
    intro i0 hi0 hn st hst
    simp only [firstNStates, List.mem_cons] at hst
    rcases hst with rfl | hst
    · exact ⟨le_refl _, hi0, it, List.mem_cons_self _ _, rfl⟩
    · by_cases hin : i0 = n
      · simp [hin] at hst
      · rw [if_neg hin] at hst
        have hlt : i0 < n := lt_of_le_of_ne hi0 hin
        have hmod : (i0 + 1) % 256 = i0 + 1 := Nat.mod_eq_of_lt (by omega)
        rw [hmod] at hst
        obtain ⟨h1, h2, it2, hmem, h3⟩ := ih (i0 + 1) (by omega) hn st hst
        exact ⟨by omega, h2, it2, List.mem_cons_of_mem _ hmem, h3⟩

/-- The result of the loop is read off its last iteration. -/
theorem firstNLoop_eq_result (s : GoString) (n : Nat) (L : List RuneAt) :
    ∀ i, firstNLoop s n L i = firstNResult s n (firstNStates n L i) := by
  induction L with
  | nil => intro i; simp [firstNLoop, firstNStates, firstNResult]
  | cons it rest ih =>
    intro i
    by_cases hin : i = n
    · simp [firstNLoop, firstNStates, firstNResult, hin]
    · cases rest with
      | nil => simp [firstNLoop, firstNStates, firstNResult, hin]
      | cons it2 rest2 =>
        have := ih ((i + 1) % 256)
        simp only [firstNLoop, if_neg hin] at this ⊢
        rw [this]
        simp only [firstNStates, firstNResult, if_neg hin, List.getLast?_cons_cons]

/-- The loop returns a prefix of the string. -/
theorem firstNLoop_prefix (s : GoString) (n : Nat) (L : List RuneAt) :
    ∀ i, firstNLoop s n L i <+: s := by
  induction L with
  | nil => intro i; exact List.prefix_refl s
  | cons it rest ih =>
    intro i
    simp only [firstNLoop]
    split_ifs
    · exact List.take_prefix _ _
    · exact ih _

/-- C19: for every string, valid UTF-8 or not and of any length, and every `n`
below 256, at the start of every iteration of the loop of `firstN` the counter
`i` is at most `n`, the increment that follows when `i` is not `n` does not
wrap, and the offset `j` is below `len(s)`, so the slice `s[:j]` is in range;
`firstN` returns what the last iteration decides, and it is a prefix of `s`. -/
theorem C19_firstN_loop_in_bounds (s : GoString) (n : Nat) (hn : n < 256) :
    (∀ st ∈ firstNStates n (rangeString s) 0,
        st.1 ≤ n ∧ (st.1 ≠ n → (st.1 + 1) % 256 = st.1 + 1) ∧ st.2 < s.length)
      ∧ firstN s n = firstNResult s n (firstNStates n (rangeString s) 0)
      ∧ firstN s n <+: s := by
  refine ⟨?_, firstNLoop_eq_result s n _ 0, firstNLoop_prefix s n _ 0⟩
  intro st hst
  obtain ⟨-, h2, it, hmem, h3⟩ := firstNStates_bounds n _ 0 (Nat.zero_le _) hn st hst
  have hoff := (rangeFrom_offset_lt s 0 0 it hmem).2
  refine ⟨h2, ?_, by omega⟩
  intro hne
  exact Nat.mod_eq_of_lt (by omega)

/-- Witness of C19: 300 invalid bytes `0xFF` cut at 255. -/
theorem C19_firstN_loop_in_bounds_witness :
    (∀ st ∈ firstNStates 255 (rangeString (List.replicate 300 0xFF)) 0,
        st.1 ≤ 255 ∧ (st.1 ≠ 255 → (st.1 + 1) % 256 = st.1 + 1)
          ∧ st.2 < (List.replicate 300 0xFF).length)
      ∧ firstN (List.replicate 300 0xFF) 255
        = firstNResult (List.replicate 300 0xFF) 255
          (firstNStates 255 (rangeString (List.replicate 300 0xFF)) 0)
      ∧ firstN (List.replicate 300 0xFF) 255 <+: List.replicate 300 0xFF :=
  C19_firstN_loop_in_bounds (List.replicate 300 0xFF) 255 (by decide)

/-! ## Extracting the identity from the method path -/

theorem takeWhile_before_sep (S M : GoString) (hS : 0x2F ∉ S) :
    (S ++ 0x2F :: M).takeWhile (fun c => c != 0x2F) = S := by
  induction S with
  | nil => simp
  | cons a S ih =>
    have ha : a ≠ 0x2F := fun h => hS (h ▸ List.mem_cons_self _ _)
    have hS2 : 0x2F ∉ S := fun h => hS (List.mem_cons_of_mem _ h)
    simp [List.takeWhile_cons, ha, ih hS2]

theorem dropWhile_before_sep (S M : GoString) (hS : 0x2F ∉ S) :
    (S ++ 0x2F :: M).dropWhile (fun c => c != 0x2F) = 0x2F :: M := by
  induction S with
  | nil => simp
  | cons a S ih =>
    have ha : a ≠ 0x2F := fun h => hS (h ▸ List.mem_cons_self _ _)
    have hS2 : 0x2F ∉ S := fun h => hS (List.mem_cons_of_mem _ h)
    simp [List.dropWhile_cons, ha, ih hS2]

theorem splitMethodName_wellFormed (S M : GoString) (hS : S ≠ []) (hM : M ≠ [])
    (hsS : 0x2F ∉ S) (hsM : 0x2F ∉ M) :
    splitMethodName (0x2F :: (S ++ 0x2F :: M)) = (S, M) := by
  simp only [splitMethodName, dropWhile_before_sep S M hsS, takeWhile_before_sep S M hsS]
  rw [if_pos ⟨hS, hM, hsM⟩]

theorem splitMethodName_fallback (p : GoString)
    (h : ¬ ∃ S M, S ≠ [] ∧ M ≠ [] ∧ 0x2F ∉ S ∧ 0x2F ∉ M ∧ p = 0x2F :: (S ++ 0x2F :: M)) :
    splitMethodName p = (lit "unknown", lit "unknown") := by
  unfold splitMethodName
  split
  · rename_i rest
    split
    · rename_i method hdrop
      split_ifs with hc
      · exfalso
        apply h
        refine ⟨rest.takeWhile (fun c => c != 0x2F), method, hc.1, hc.2.1, ?_, hc.2.2, ?_⟩
        · intro hmem
          have := List.mem_takeWhile_imp hmem
          simp at this
        · rw [← hdrop, List.takeWhile_append_dropWhile]
      · rfl
    · rfl
  · rfl

/-- C15, the claim as stated fails: the path `/s<0xFF>/m` has the form `/S/M`
and is split into the names `s<0xFF>` and `m`, but the first is not valid
UTF-8 and the constructor returns no reporter: `WithLabelValues` panics. -/
theorem C15_invalid_utf8_counterexample :
    splitMethodName [0x2F, 0x73, 0xFF, 0x2F, 0x6D] = ([0x73, 0xFF], [0x6D])
      ∧ newServerReporterChecked splitMethodName (ServerMetrics.empty false) Unary
          [0x2F, 0x73, 0xFF, 0x2F, 0x6D] 5 0 = none := by
  have hsplit : splitMethodName [0x2F, 0x73, 0xFF, 0x2F, 0x6D] = ([0x73, 0xFF], [0x6D]) := by
    decide
  refine ⟨hsplit, ?_⟩
  rw [newServerReporterChecked_eq, hsplit]
  have hv : validLabelValues [Unary, [0x73, 0xFF], [0x6D]] = false := by decide
  simp [hv]

/-- C15, amended: with a call type that is valid UTF-8, for every path `/S/M`
with `S` and `M` non-empty and free of the separator the extraction yields
(`S`, `M`), and when `S` and `M` are valid UTF-8 the constructor returns a
reporter with `serviceName = S` and `methodName = M`; for every other path the
extraction yields the fallback identity (`unknown`, `unknown`) and the
constructor returns a reporter with it.  In both cases the started counter of
the identity gains 1. -/
theorem C15_identity_extraction (m : ServerMetrics) (rpcType : grpcType)
    (errMsgMaxLength : Nat) (now : Time) (hrpc : validString rpcType = true) :
    (∀ S M : GoString, S ≠ [] → M ≠ [] → 0x2F ∉ S → 0x2F ∉ M →
        splitMethodName (0x2F :: (S ++ 0x2F :: M)) = (S, M)
        ∧ (validString S = true → validString M = true →
          ∃ r m2, newServerReporterChecked splitMethodName m rpcType
              (0x2F :: (S ++ 0x2F :: M)) errMsgMaxLength now = some (r, m2)
            ∧ r.identity = [rpcType, S, M]
            ∧ m2.serverStartedCounter [rpcType, S, M]
              = m.serverStartedCounter [rpcType, S, M] + 1))
      ∧ (∀ p : GoString,
          (¬ ∃ S M, S ≠ [] ∧ M ≠ [] ∧ 0x2F ∉ S ∧ 0x2F ∉ M ∧ p = 0x2F :: (S ++ 0x2F :: M)) →
          splitMethodName p = (lit "unknown", lit "unknown")
          ∧ ∃ r m2, newServerReporterChecked splitMethodName m rpcType p errMsgMaxLength now
              = some (r, m2)
            ∧ r.identity = [rpcType, lit "unknown", lit "unknown"]
            ∧ m2.serverStartedCounter [rpcType, lit "unknown", lit "unknown"]
              = m.serverStartedCounter [rpcType, lit "unknown", lit "unknown"] + 1) := by
  constructor
  · intro S M hS hM hsS hsM
    have h := splitMethodName_wellFormed S M hS hM hsS hsM
    refine ⟨h, ?_⟩
    intro hvS hvM
    have hv : validLabelValues [rpcType, S, M] = true := by
      simp [validLabelValues, hrpc, hvS, hvM]
    refine ⟨(newServerReporter splitMethodName m rpcType (0x2F :: (S ++ 0x2F :: M))
        errMsgMaxLength now).1,
      (newServerReporter splitMethodName m rpcType (0x2F :: (S ++ 0x2F :: M))
        errMsgMaxLength now).2, ?_, ?_, ?_⟩
    · rw [newServerReporterChecked_eq, h, if_pos hv]
    · simp [newServerReporter, serverReporter.identity, h]
    · simp [newServerReporter, serverReporter.identity, h, CounterVec.inc]
  · intro p hp
    have h := splitMethodName_fallback p hp
    have hu : validString (lit "unknown") = true := by decide
    have hv : validLabelValues [rpcType, lit "unknown", lit "unknown"] = true := by
      simp [validLabelValues, hrpc, hu]
    refine ⟨h, (newServerReporter splitMethodName m rpcType p errMsgMaxLength now).1,
      (newServerReporter splitMethodName m rpcType p errMsgMaxLength now).2, ?_, ?_, ?_⟩
    · rw [newServerReporterChecked_eq, h, if_pos hv]
    · simp [newServerReporter, serverReporter.identity, h]
    · simp [newServerReporter, serverReporter.identity, h, CounterVec.inc]

/-- Witness of C15 amended: the path `/pkg.Greeter/SayHello`, and the path
`SayHello` without a separator. -/
theorem C15_identity_extraction_witness :
    (∃ r m2, newServerReporterChecked splitMethodName (ServerMetrics.empty false) Unary
          (0x2F :: (lit "pkg.Greeter" ++ 0x2F :: lit "SayHello")) 5 0 = some (r, m2)
        ∧ r.identity = [Unary, lit "pkg.Greeter", lit "SayHello"]
        ∧ m2.serverStartedCounter [Unary, lit "pkg.Greeter", lit "SayHello"]
          = (ServerMetrics.empty false).serverStartedCounter
            [Unary, lit "pkg.Greeter", lit "SayHello"] + 1)
      ∧ splitMethodName (lit "SayHello") = (lit "unknown", lit "unknown") :=
  ⟨((C15_identity_extraction (ServerMetrics.empty false) Unary 5 0 (by decide)).1
      (lit "pkg.Greeter") (lit "SayHello") (by decide) (by decide) (by decide)
      (by decide)).2 (by decide) (by decide),
    ((C15_identity_extraction (ServerMetrics.empty false) Unary 5 0 (by decide)).2
      (lit "SayHello")
      (by
        rintro ⟨S, M, -, -, -, -, h⟩
        have : (lit "SayHello").head? = some 0x2F := by rw [h]; rfl
        exact absurd this (by decide))).1⟩

/-! ## Started and handled counts along the protocol -/

theorem countP_eraseIdx (q : serverReporter → Bool) (l : List serverReporter) :
    ∀ (i : Nat) (r : serverReporter), l[i]? = some r →
      (l.eraseIdx i).countP q + (if q r then 1 else 0) = l.countP q := by
  induction l with
  | nil => intro i r h; simp at h
  | cons a l ih =>
    intro i r h
    cases i with
    | zero =>
      simp only [List.getElem?_cons_zero, Option.some.injEq] at h
      subst h
      simp [List.countP_cons]
    | succ i =>
      simp only [List.getElem?_cons_succ] at h
      have := ih i r h
      simp only [List.eraseIdx_cons_succ, List.countP_cons]
      omega

theorem handled_key_eq (id1 id2 : Labels) (a b c d : GoString) :
    id1 ++ [a, b] = id2 ++ [c, d] ↔ id1 = id2 ∧ (a, b) = (c, d) := by
  constructor
  · intro h
    have := List.append_inj' h (by simp)
    simp only [List.cons.injEq, and_true] at this
    exact ⟨this.1, by rw [this.2.1, this.2.2]⟩
  · rintro ⟨h1, h2⟩
    simp only [Prod.mk.injEq] at h2
    rw [h1, h2.1, h2.2]

theorem balanced_empty (enabled : Bool) (id : Labels) :
    Balanced ⟨ServerMetrics.empty enabled, []⟩ id :=
  ⟨∅, fun _ _ => rfl, by simp [ServerMetrics.empty, System.liveCount]⟩

/-- A construction keeps the balance: one more started, one more in flight. -/
theorem balanced_construct (s : System) (r : serverReporter) (m2 : ServerMetrics) (id : Labels)
    (hh : m2.serverHandledCounter = s.metrics.serverHandledCounter)
    (hs : m2.serverStartedCounter = s.metrics.serverStartedCounter.inc r.identity)
    (h : Balanced s id) : Balanced ⟨m2, s.live ++ [r]⟩ id := by
  obtain ⟨S, hz, hsum⟩ := h
  refine ⟨S, ?_, ?_⟩
  · intro p hp
    simp only [hh]
    exact hz p hp
  · simp only [hh, hs, System.liveCount, List.countP_append, List.countP_cons, List.countP_nil,
      CounterVec.inc] at hsum ⊢
    by_cases hid : r.identity = id
    · simp only [hid, decide_True, if_true]
      omega
    · have hid2 : ¬ id = r.identity := fun h => hid h.symm
      simp only [hid, hid2, decide_False, Bool.false_eq_true, if_false]
      omega

/-- A message call keeps the balance: it touches neither counter. -/
theorem balanced_message (s : System) (m2 : ServerMetrics) (id : Labels)
    (hh : m2.serverHandledCounter = s.metrics.serverHandledCounter)
    (hs : m2.serverStartedCounter = s.metrics.serverStartedCounter)
    (h : Balanced s id) : Balanced ⟨m2, s.live⟩ id := by
  obtain ⟨S, hz, hsum⟩ := h
  refine ⟨S, ?_, ?_⟩
  · intro p hp
    simp only [hh]
    exact hz p hp
  · simpa only [hh, hs, System.liveCount] using hsum

/-- A terminal call keeps the balance: one more handled, one fewer in flight. -/
theorem balanced_terminal (s : System) (i : Nat) (r : serverReporter) (m2 : ServerMetrics)
    (a b : GoString) (id : Labels) (hr : s.live[i]? = some r)
    (hh : m2.serverHandledCounter = s.metrics.serverHandledCounter.inc (r.identity ++ [a, b]))
    (hs : m2.serverStartedCounter = s.metrics.serverStartedCounter)
    (h : Balanced s id) : Balanced ⟨m2, s.live.eraseIdx i⟩ id := by
  obtain ⟨S, hz, hsum⟩ := h
  have hcount := countP_eraseIdx (fun r => decide (r.identity = id)) s.live i r hr
  by_cases hid : r.identity = id
  · refine ⟨insert (a, b) S, ?_, ?_⟩
    · intro p hp
      have hp1 : p ≠ (a, b) := fun h => hp (h ▸ Finset.mem_insert_self _ _)
      have hp2 : p ∉ S := fun h => hp (Finset.mem_insert_of_mem h)
      have hne : ¬ id ++ [p.1, p.2] = r.identity ++ [a, b] := by
        intro hk
        exact hp1 ((handled_key_eq _ _ _ _ _ _).1 hk).2
      simp only [hh, CounterVec.inc, if_neg hne]
      exact hz p hp2
    · have hfun : ∀ p : GoString × GoString,
          m2.serverHandledCounter (id ++ [p.1, p.2])
            = s.metrics.serverHandledCounter (id ++ [p.1, p.2])
              + (if p = (a, b) then 1 else 0) := by
        intro p
        simp only [hh, CounterVec.inc]
        by_cases hp : p = (a, b)
        · subst hp
          simp [hid]
        · have hne : ¬ id ++ [p.1, p.2] = r.identity ++ [a, b] := fun hk =>
            hp ((handled_key_eq _ _ _ _ _ _).1 hk).2
          simp [hp, hne]
      have hsame : ∑ p ∈ insert (a, b) S, s.metrics.serverHandledCounter (id ++ [p.1, p.2])
          = ∑ p ∈ S, s.metrics.serverHandledCounter (id ++ [p.1, p.2]) := by
        by_cases hab : (a, b) ∈ S
        · rw [Finset.insert_eq_of_mem hab]
        · rw [Finset.sum_insert hab, hz (a, b) hab, Nat.zero_add]
      simp only [System.liveCount, hs] at hsum hcount ⊢
      rw [Finset.sum_congr rfl (fun p _ => hfun p), Finset.sum_add_distrib, hsame,
        Finset.sum_ite_eq' (insert (a, b) S) (a, b) (fun _ => 1),
        if_pos (Finset.mem_insert_self _ _)]
      simp only [hid, decide_True, if_true] at hcount
      omega
  · refine ⟨S, ?_, ?_⟩
    · intro p hp
      have hne : ¬ id ++ [p.1, p.2] = r.identity ++ [a, b] := fun hk =>
        hid ((handled_key_eq _ _ _ _ _ _).1 hk).1.symm
      simp only [hh, CounterVec.inc, if_neg hne]
      exact hz p hp
    · have hfun : ∀ p : GoString × GoString,
          m2.serverHandledCounter (id ++ [p.1, p.2])
            = s.metrics.serverHandledCounter (id ++ [p.1, p.2]) := by
        intro p
        have hne : ¬ id ++ [p.1, p.2] = r.identity ++ [a, b] := fun hk =>
          hid ((handled_key_eq _ _ _ _ _ _).1 hk).1.symm
        simp only [hh, CounterVec.inc, if_neg hne]
      simp only [System.liveCount, hs] at hsum hcount ⊢
      rw [Finset.sum_congr rfl (fun p _ => hfun p)]
      simp only [hid, decide_False, Bool.false_eq_true, if_false, Nat.add_zero] at hcount
      omega

/-- Every call of the protocol keeps the balance of every identity. -/
theorem balanced_step (tbl : Nat → Nat) (split : GoString → GoString × GoString) (s : System)
    (c : Call) (id : Labels) (h : Balanced s id) : Balanced (s.step tbl split c) id := by
  cases c with
  | construct rpcType fullMethod errMsgMaxLength now =>
    exact balanced_construct s _ _ id rfl rfl h
  | receivedMessage i =>
    simp only [System.step]
    cases hr : s.live[i]? with
    | none => exact h
    | some r => exact balanced_message s _ id rfl rfl h
  | sentMessage i =>
    simp only [System.step]
    cases hr : s.live[i]? with
    | none => exact h
    | some r => exact balanced_message s _ id rfl rfl h
  | handled i code now =>
    simp only [System.step]
    cases hr : s.live[i]? with
    | none => exact h
    | some r =>
      refine balanced_terminal s i r _ (codeString code) [] id hr ?_ ?_ h
      · simp [serverReporter.Handled, (observeHandled_counters _ _ _).1]
      · simp [serverReporter.Handled, (observeHandled_counters _ _ _).2.1]
  | handledWithStatus i st now =>
    simp only [System.step]
    cases hr : s.live[i]? with
    | none => exact h
    | some r =>
      refine balanced_terminal s i r _ (codeString st.Code) (r.slugifyError tbl st.Err) id hr
        ?_ ?_ h
      · simp [serverReporter.HandledWithStatus, (observeHandled_counters _ _ _).1]
      · simp [serverReporter.HandledWithStatus, (observeHandled_counters _ _ _).2.1]

/-- Every state the protocol reaches from an empty registry is balanced. -/
theorem balanced_run (tbl : Nat → Nat) (split : GoString → GoString × GoString)
    (enabled : Bool) (calls : List Call) (id : Labels) :
    Balanced (System.run tbl split enabled calls) id := by
  unfold System.run
  have hgen : ∀ (cs : List Call) (s : System), Balanced s id →
      Balanced (cs.foldl (System.step tbl split) s) id := by
    intro cs
    induction cs with
    | nil => intro s hs; exact hs
    | cons c cs ih => intro s hs; exact ih _ (balanced_step tbl split s c id hs)
  exact hgen calls _ (balanced_empty enabled id)

/-- C14: in every state reached from an empty registry by calls that follow
the protocol, for each identity (callType, serviceName, methodName) the handled
counter has finitely many non-zero series, and its sum over all (statusCode,
outcomeLabel) plus the number of reporters of that identity still in flight is
the started counter: the sum is at most the started counter, with equality
exactly when no reporter of that identity is in flight. -/
theorem C14_handled_at_most_started (tbl : Nat → Nat) (split : GoString → GoString × GoString)
    (enabled : Bool) (calls : List Call) (rpcType serviceName methodName : GoString) :
    (Function.support (fun p : GoString × GoString =>
        (System.run tbl split enabled calls).metrics.serverHandledCounter
          [rpcType, serviceName, methodName, p.1, p.2])).Finite
      ∧ finsum (fun p : GoString × GoString =>
          (System.run tbl split enabled calls).metrics.serverHandledCounter
            [rpcType, serviceName, methodName, p.1, p.2])
          + (System.run tbl split enabled calls).liveCount [rpcType, serviceName, methodName]
        = (System.run tbl split enabled calls).metrics.serverStartedCounter
          [rpcType, serviceName, methodName]
      ∧ finsum (fun p : GoString × GoString =>
          (System.run tbl split enabled calls).metrics.serverHandledCounter
            [rpcType, serviceName, methodName, p.1, p.2])
        ≤ (System.run tbl split enabled calls).metrics.serverStartedCounter
          [rpcType, serviceName, methodName]
      ∧ (finsum (fun p : GoString × GoString =>
            (System.run tbl split enabled calls).metrics.serverHandledCounter
              [rpcType, serviceName, methodName, p.1, p.2])
          = (System.run tbl split enabled calls).metrics.serverStartedCounter
            [rpcType, serviceName, methodName]
        ↔ (System.run tbl split enabled calls).liveCount [rpcType, serviceName, methodName]
          = 0) := by
  obtain ⟨S, hz, hsum⟩ :=
    balanced_run tbl split enabled calls [rpcType, serviceName, methodName]
  simp only [List.cons_append, List.nil_append] at hz hsum
  have hsub : Function.support (fun p : GoString × GoString =>
      (System.run tbl split enabled calls).metrics.serverHandledCounter
        [rpcType, serviceName, methodName, p.1, p.2]) ⊆ ↑S := by
    intro p hp
    by_contra hnot
    exact hp (hz p hnot)
  have hfin := finsum_eq_sum_of_support_subset _ hsub
  refine ⟨S.finite_toSet.subset hsub, ?_, ?_, ?_⟩
  · rw [hfin]; exact hsum
  · rw [hfin]; omega
  · rw [hfin]; omega

/-- The protocol at work: two calls of one method are started, one of them is
handled; the started counter is 2, the handled series holds 1, one reporter is
in flight. -/
theorem protocol_two_calls_example :
    (System.run id splitMethodName false
        [Call.construct Unary (lit "/pkg.Greeter/SayHello") 5 0,
          Call.construct Unary (lit "/pkg.Greeter/SayHello") 5 0,
          Call.receivedMessage 0, Call.handled 0 0 3]).metrics.serverStartedCounter
        [Unary, lit "pkg.Greeter", lit "SayHello"] = 2
      ∧ (System.run id splitMethodName false
        [Call.construct Unary (lit "/pkg.Greeter/SayHello") 5 0,
          Call.construct Unary (lit "/pkg.Greeter/SayHello") 5 0,
          Call.receivedMessage 0, Call.handled 0 0 3]).metrics.serverHandledCounter
        [Unary, lit "pkg.Greeter", lit "SayHello", codeString 0, []] = 1
      ∧ (System.run id splitMethodName false
        [Call.construct Unary (lit "/pkg.Greeter/SayHello") 5 0,
          Call.construct Unary (lit "/pkg.Greeter/SayHello") 5 0,
          Call.receivedMessage 0, Call.handled 0 0 3]).liveCount
        [Unary, lit "pkg.Greeter", lit "SayHello"] = 1 := by
  refine ⟨by decide, by decide, by decide⟩

end GrpcPrometheus
